import Mathlib

/-
Verification of the xAdvect trajectory integrator (src/xAdvect/advect.py)
against its natural-language specification.

Shallow embedding conventions:
* numpy float64 scalars are modelled as exact rationals; the value `none`
  of `FP := Option ℚ` stands for a non-finite float (NaN, or the result of
  a division by zero).  Arithmetic propagates non-finite values the way
  IEEE arithmetic propagates NaN.
* numpy 1-d arrays over the particle dimension are `List FP`; all numpy
  array operations used by the source are elementwise, and are modelled
  with `List.zipWith` / `List.map`.
* `np.sqrt` appears in the source only immediately under a comparison
  against a nonnegative constant (`sigma ≤ tolerance`) or as the final
  step of the `distance` diagnostic.  Since `Real.sqrt` is monotone and
  both sides are nonnegative, `sqrt s ≤ c ↔ s ≤ c²`; the embedding
  therefore carries the radicand and compares against the squared
  constant.  This keeps every definition computable over ℚ.
-/

namespace XAdvect

/-- Scalar model of a numpy float64 value: `some q` is the finite value `q`,
`none` is a non-finite value (NaN, or an infinity produced by division by
zero; no code path examined here distinguishes the two). -/
abbrev FP := Option ℚ

/-- Addition with NaN propagation. -/
def fadd : FP → FP → FP
  | some a, some b => some (a + b)
  | _, _ => none

/-- Subtraction with NaN propagation. -/
def fsub : FP → FP → FP
  | some a, some b => some (a - b)
  | _, _ => none

/-- Multiplication with NaN propagation (note `0 * NaN = NaN` in IEEE,
matched here because `none` absorbs). -/
def fmul : FP → FP → FP
  | some a, some b => some (a * b)
  | _, _ => none

/-- Division: division by zero yields a non-finite value (IEEE gives
`±inf` or NaN; no claim consumes a value produced by division by zero,
so the collapse into `none` is harmless). -/
def fdiv : FP → FP → FP
  | some a, some b => if b = 0 then none else some (a / b)
  | _, _ => none

/-- Square of a value. -/
def fsq (a : FP) : FP := fmul a a

/-- np.clip of a scalar into `[lo, hi]`: NaN passes through, a finite
value is clamped.  numpy computes `min (max t lo) hi`. -/
def fclip : FP → ℚ → ℚ → FP
  | some a, lo, hi => some (min (max a lo) hi)
  | none, _, _ => none

/-- Finiteness test (`np.isfinite`). -/
def isFin : FP → Bool
  | some _ => true
  | none => false

@[simp] lemma fadd_some (a b : ℚ) : fadd (some a) (some b) = some (a + b) := rfl
@[simp] lemma fsub_some (a b : ℚ) : fsub (some a) (some b) = some (a - b) := rfl
@[simp] lemma fmul_some (a b : ℚ) : fmul (some a) (some b) = some (a * b) := rfl
@[simp] lemma fadd_none_left (b : FP) : fadd none b = none := rfl
@[simp] lemma fmul_none_left (b : FP) : fmul none b = none := rfl
@[simp] lemma fsub_none_left (b : FP) : fsub none b = none := rfl

@[simp] lemma fadd_none_right (a : FP) : fadd a none = none := by cases a <;> rfl
@[simp] lemma fmul_none_right (a : FP) : fmul a none = none := by cases a <;> rfl
@[simp] lemma fsub_none_right (a : FP) : fsub a none = none := by cases a <;> rfl

lemma fdiv_some_of_ne (a b : ℚ) (hb : b ≠ 0) :
    fdiv (some a) (some b) = some (a / b) := by
  simp [fdiv, hb]

/-- zipWith over three parallel lists (numpy elementwise ternary op). -/
def zipWith3 (f : α → β → γ → δ) : List α → List β → List γ → List δ
  | a :: as, b :: bs, c :: cs => f a b c :: zipWith3 f as bs cs
  | _, _, _ => []

@[simp] lemma zipWith3_cons (f : α → β → γ → δ) (a : α) (b : β) (c : γ)
    (as : List α) (bs : List β) (cs : List γ) :
    zipWith3 f (a :: as) (b :: bs) (c :: cs) = f a b c :: zipWith3 f as bs cs := rfl

@[simp] lemma zipWith3_nil (f : α → β → γ → δ) (bs : List β) (cs : List γ) :
    zipWith3 f [] bs cs = [] := rfl

/-- zip of four parallel lists (used by the RKF45 error estimator). -/
def zip4 : List α → List β → List γ → List δ → List (α × β × γ × δ)
  | a :: as, b :: bs, c :: cs, d :: ds => (a, b, c, d) :: zip4 as bs cs ds
  | _, _, _, _ => []

@[simp] lemma zip4_cons (a : α) (b : β) (c : γ) (d : δ)
    (as : List α) (bs : List β) (cs : List γ) (ds : List δ) :
    zip4 (a :: as) (b :: bs) (c :: cs) (d :: ds) = (a, b, c, d) :: zip4 as bs cs ds := rfl

@[simp] lemma zip4_nil (bs : List β) (cs : List γ) (ds : List δ) :
    zip4 ([] : List α) bs cs ds = [] := rfl

/-- Minimum of a numpy array (`np.min`); the `[]` case is junk, every use
site has a nonempty array. -/
def listMin : List ℚ → ℚ
  | [] => 0
  | a :: l => l.foldl min a

/-- Maximum of a numpy array (`np.max`). -/
def listMax : List ℚ → ℚ
  | [] => 0
  | a :: l => l.foldl max a

/-- Mean of a numpy array (`np.mean`). -/
def listMean (l : List ℚ) : ℚ := l.sum / l.length

/-- Scalar times array, elementwise (`c * arr`). -/
def smulL (c : ℚ) (l : List FP) : List FP := l.map (fun a => fmul (some c) a)

/-- Pointwise velocity sampler: given a particle's `(x, y, t)` it returns
the interpolated `(U, V)` there.  This is the per-particle semantics of
one `Advect.interp` query; a whole-array query is `zipWith3` of it. -/
abbrev Sampler := FP → FP → FP → FP × FP

/-- One invocation of the Velocity Sampler (`self.interp`) on full
particle arrays.  The second component tallies the invocation (used to
count sampler calls per RKF45 sub-step). -/
def interpCall (f : Sampler) (xs ys ts : List FP) : List (FP × FP) × ℕ :=
  (zipWith3 (fun x y t => f x y t) xs ys ts, 1)

/-- Spatially and temporally constant velocity field `(u, v)` covering
all queried points. -/
def constSampler (u v : ℚ) : Sampler := fun _ _ _ => (some u, some v)

/-- Sampler whose every query falls outside the provider's spatial
domain: the interpolation returns NaN everywhere. -/
def nanSampler : Sampler := fun _ _ _ => (none, none)

/-- Spatial interpolation method selector (`method` keyword). -/
inductive Method
  | linear
  | nearest
deriving DecidableEq

/-- External velocity-field provider (`self.velocity`), an xarray dataset
holding `U`/`V` variables over `x`, `y` and optionally `t`.  `hasT`
models `"t" in self.velocity`; `tvals` is the provider's time axis;
`sampleXYT`/`sampleXY` are its 3-d and 2-d interpolation operations at
the configured method. -/
structure Velocity where
  hasT : Bool
  tvals : List ℚ
  sampleXYT : Method → FP → FP → FP → FP × FP
  sampleXY : Method → FP → FP → FP × FP

/-- `Advect.interp` (advect.py lines 112-151): interpolate the provider's
velocities to the particle coordinates.  With a time axis the query time
is first clipped elementwise into the provider's time range; without one
the query omits time entirely. -/
def Advect.interp (v : Velocity) (m : Method) (xs ys ts : List FP) : List (FP × FP) :=
  if v.hasT then
    zipWith3 (fun x y t => v.sampleXYT m x y t) xs ys
      (ts.map (fun t => fclip t (listMin v.tvals) (listMax v.tvals)))
  else
    List.zipWith (fun x y => v.sampleXY m x y) xs ys

/-- Scalar-or-array time argument, as distinguished by `np.ndim` in the
step planner (`Advect.translate` lines 195-213). -/
inductive TS
  | scalar (q : ℚ)
  | array (qs : List ℚ)

/-- `np.min` over a scalar or array time argument. -/
def TS.tmin : TS → ℚ
  | .scalar q => q
  | .array qs => listMin qs

/-- `np.max` over a scalar or array time argument. -/
def TS.tmax : TS → ℚ
  | .scalar q => q
  | .array qs => listMax qs

/-- `np.mean` over a scalar or array time argument. -/
def TS.tmean : TS → ℚ
  | .scalar q => q
  | .array qs => listMean qs

/-- `np.ndim _ == 0`. -/
def TS.ndim0 : TS → Bool
  | .scalar _ => true
  | .array _ => false

/-- `np.max (np.abs (t0 - t))` with numpy broadcasting between a scalar
and an array. -/
def TS.maxAbsDiff : TS → TS → ℚ
  | .scalar a, .scalar b => |a - b|
  | .scalar a, .array l => listMax (l.map (fun q => |a - q|))
  | .array l, .scalar b => listMax (l.map (fun q => |q - b|))
  | .array l, .array m => listMax (List.zipWith (fun a b => |a - b|) l m)

/-- `np.int64` applied to a float: truncation toward zero. -/
def to_int64 (q : ℚ) : ℤ := if 0 ≤ q then ⌊q⌋ else ⌈q⌉

/-- Raw (un-truncated) step count computed by `Advect.translate`
(lines 199-210) when no explicit `N` is supplied. -/
def n_steps (t t0 : TS) (step : ℚ) : ℚ :=
  if t0.tmin < t.tmin then
    |t.tmax - t0.tmin| / step
  else if t0.tmax > t.tmax then
    |t0.tmax - t.tmin| / step
  else if t0.ndim0 || t.ndim0 then
    TS.maxAbsDiff t0 t / step
  else
    |t0.tmean - t.tmean| / step

/-- The Step Planner: an explicitly supplied `N` is used unchanged,
otherwise `n_steps` is computed and truncated by `np.int64`
(`kwargs.update({"N": np.int64(n_steps)})`, line 212). -/
def plannerN (Nopt : Option ℤ) (t t0 : TS) (step : ℚ) : ℤ :=
  match Nopt with
  | some n => n
  | none => to_int64 (n_steps t t0 step)

/-- The advection object (`class Advect`): source coordinates `x`, `y`,
per-particle source times `t`, scalar target time `t0` (all finite, as
constructed from user input), and the output coordinates `x0`, `y0`,
absent (`None`) until an integrator has run. -/
structure Advect where
  x : List ℚ
  y : List ℚ
  t : List ℚ
  t0 : ℚ
  x0 : Option (List FP) := none
  y0 : Option (List FP) := none
deriving DecidableEq

/-- Working state of the fixed-step integrators: the positions `x0`, `y0`
being advanced and the time cursor `t` (all copies of the source arrays,
`np.copy`). -/
structure EState where
  ex : List FP
  ey : List FP
  et : List FP
deriving DecidableEq

/-- Sequential loop `for i in range n` over a state transformer. -/
def loopN (g : α → α) : ℕ → α → α
  | 0, s => s
  | k + 1, s => loopN g k (g s)

@[simp] lemma loopN_zero (g : α → α) (s : α) : loopN g 0 s = s := rfl
lemma loopN_succ (g : α → α) (k : ℕ) (s : α) : loopN g (k + 1) s = loopN g k (g s) := rfl

/-- One Euler sub-step (`Advect.euler` loop body, lines 244-250):
sample at `(x0, y0, t)`, add `U·dt`, `V·dt`, advance the time cursor. -/
def eulerStep (f : Sampler) (dts : List FP) (s : EState) : EState :=
  let uv := (interpCall f s.ex s.ey s.et).1
  { ex := List.zipWith fadd s.ex (List.zipWith fmul (uv.map Prod.fst) dts)
    ey := List.zipWith fadd s.ey (List.zipWith fmul (uv.map Prod.snd) dts)
    et := List.zipWith fadd s.et dts }

/-- `Advect.euler` (lines 227-252): `dt = (t0 - t)/float64(N)` per
particle, `N` sub-steps from copies of the source coordinates, results
written to `x0`, `y0`. -/
def Advect.euler (st : Advect) (f : Sampler) (N : ℤ) : Advect :=
  let dts : List FP := st.t.map (fun tq => fdiv (some (st.t0 - tq)) (some (N : ℚ)))
  let init : EState := { ex := st.x.map some, ey := st.y.map some, et := st.t.map some }
  let fin := loopN (eulerStep f dts) N.toNat init
  { st with x0 := some fin.ex, y0 := some fin.ey }

/-- One RK4 sub-step (`Advect.RK4` loop body, lines 272-305): four stage
samples combined with weights `(1, 2, 2, 1)/6`. -/
def rk4Step (f : Sampler) (dts : List FP) (s : EState) : EState :=
  let uv1 := (interpCall f s.ex s.ey s.et).1
  let u1 := uv1.map Prod.fst
  let v1 := uv1.map Prod.snd
  let x2 := List.zipWith fadd s.ex (List.zipWith fmul (smulL (1/2) u1) dts)
  let y2 := List.zipWith fadd s.ey (List.zipWith fmul (smulL (1/2) v1) dts)
  let uv2 := (interpCall f x2 y2 s.et).1
  let u2 := uv2.map Prod.fst
  let v2 := uv2.map Prod.snd
  let x3 := List.zipWith fadd s.ex (List.zipWith fmul (smulL (1/2) u2) dts)
  let y3 := List.zipWith fadd s.ey (List.zipWith fmul (smulL (1/2) v2) dts)
  let uv3 := (interpCall f x3 y3 s.et).1
  let u3 := uv3.map Prod.fst
  let v3 := uv3.map Prod.snd
  let x4 := List.zipWith fadd s.ex (List.zipWith fmul u3 dts)
  let y4 := List.zipWith fadd s.ey (List.zipWith fmul v3 dts)
  let uv4 := (interpCall f x4 y4 s.et).1
  let u4 := uv4.map Prod.fst
  let v4 := uv4.map Prod.snd
  let sumU := List.zipWith fadd (List.zipWith fadd (List.zipWith fadd u1 (smulL 2 u2)) (smulL 2 u3)) u4
  let sumV := List.zipWith fadd (List.zipWith fadd (List.zipWith fadd v1 (smulL 2 v2)) (smulL 2 v3)) v4
  { ex := List.zipWith fadd s.ex ((List.zipWith fmul dts sumU).map (fun q => fdiv q (some 6)))
    ey := List.zipWith fadd s.ey ((List.zipWith fmul dts sumV).map (fun q => fdiv q (some 6)))
    et := List.zipWith fadd s.et dts }

/-- `Advect.RK4` (lines 255-307); `np.squeeze` on `t0 - t` is the
identity here (1-d array of particles). -/
def Advect.RK4 (st : Advect) (f : Sampler) (N : ℤ) : Advect :=
  let dts : List FP := st.t.map (fun tq => fdiv (some (st.t0 - tq)) (some (N : ℚ)))
  let init : EState := { ex := st.x.map some, ey := st.y.map some, et := st.t.map some }
  let fin := loopN (rk4Step f dts) N.toNat init
  { st with x0 := some fin.ex, y0 := some fin.ey }

/-- The six per-stage velocity arrays returned by one `RFK45_interp`
call (rows of the 6 × n numpy arrays `U`, `V`). -/
structure Stage6 where
  s1 : List FP
  s2 : List FP
  s3 : List FP
  s4 : List FP
  s5 : List FP
  s6 : List FP
deriving DecidableEq

/-- Butcher stage matrix `A` of the Runge-Kutta-Fehlberg 4(5) method
(`Advect.RFK45_interp`, lines 408-422), indexed as in the source. -/
def Acoef : ℕ → ℕ → ℚ
  | 0, 0 => 1/4
  | 1, 0 => 3/32
  | 1, 1 => 9/32
  | 2, 0 => 1932/2197
  | 2, 1 => -7200/2197
  | 2, 2 => 7296/2197
  | 3, 0 => 439/216
  | 3, 1 => -8
  | 3, 2 => 3680/513
  | 3, 3 => -845/4104
  | 4, 0 => -8/27
  | 4, 1 => 2
  | 4, 2 => -3544/2565
  | 4, 3 => 1859/4104
  | 4, 4 => -11/40
  | _, _ => 0

/-- Fourth-order weight vector `b4` (lines 322-329). -/
def b4 : List ℚ := [25/216, 0, 1408/2565, 2197/4104, -1/5, 0]

/-- Fifth-order weight vector `b5` (lines 330-337). -/
def b5 : List ℚ := [16/135, 0, 6656/12825, 28561/56430, -9/50, 2/55]

/-- `np.dot` of a 6-entry weight vector with the 6 × n stage array:
per-particle weighted sum of the six stage velocities. -/
def np_dot (bs : List ℚ) (S : Stage6) : List FP :=
  List.zipWith fadd (smulL (bs.getD 0 0) S.s1)
    (List.zipWith fadd (smulL (bs.getD 1 0) S.s2)
      (List.zipWith fadd (smulL (bs.getD 2 0) S.s3)
        (List.zipWith fadd (smulL (bs.getD 3 0) S.s4)
          (List.zipWith fadd (smulL (bs.getD 4 0) S.s5)
            (smulL (bs.getD 5 0) S.s6)))))

/-- `Advect.RFK45_interp` (lines 389-514): six Velocity Sampler
invocations producing the six stage velocity arrays; each stage position
is predicted from the accumulated weighted velocities of prior stages
through the `A` matrix.  The third component tallies the sampler
invocations made by this call. -/
def RFK45_interp (f : Sampler) (xs ys dts ts : List FP) : Stage6 × Stage6 × ℕ :=
  let r1 := interpCall f xs ys ts
  let u1 := r1.1.map Prod.fst
  let v1 := r1.1.map Prod.snd
  let x2 := List.zipWith fadd xs (List.zipWith fmul (smulL (Acoef 0 0) u1) dts)
  let y2 := List.zipWith fadd ys (List.zipWith fmul (smulL (Acoef 0 0) v1) dts)
  let r2 := interpCall f x2 y2 ts
  let u2 := r2.1.map Prod.fst
  let v2 := r2.1.map Prod.snd
  let x3 := List.zipWith fadd xs (List.zipWith fmul
    (List.zipWith fadd (smulL (Acoef 1 0) u1) (smulL (Acoef 1 1) u2)) dts)
  let y3 := List.zipWith fadd ys (List.zipWith fmul
    (List.zipWith fadd (smulL (Acoef 1 0) v1) (smulL (Acoef 1 1) v2)) dts)
  let r3 := interpCall f x3 y3 ts
  let u3 := r3.1.map Prod.fst
  let v3 := r3.1.map Prod.snd
  let x4 := List.zipWith fadd xs (List.zipWith fmul
    (List.zipWith fadd (smulL (Acoef 2 0) u1)
      (List.zipWith fadd (smulL (Acoef 2 1) u2) (smulL (Acoef 2 2) u3))) dts)
  let y4 := List.zipWith fadd ys (List.zipWith fmul
    (List.zipWith fadd (smulL (Acoef 2 0) v1)
      (List.zipWith fadd (smulL (Acoef 2 1) v2) (smulL (Acoef 2 2) v3))) dts)
  let r4 := interpCall f x4 y4 ts
  let u4 := r4.1.map Prod.fst
  let v4 := r4.1.map Prod.snd
  let x5 := List.zipWith fadd xs (List.zipWith fmul
    (List.zipWith fadd (smulL (Acoef 3 0) u1)
      (List.zipWith fadd (smulL (Acoef 3 1) u2)
        (List.zipWith fadd (smulL (Acoef 3 2) u3) (smulL (Acoef 3 3) u4)))) dts)
  let y5 := List.zipWith fadd ys (List.zipWith fmul
    (List.zipWith fadd (smulL (Acoef 3 0) v1)
      (List.zipWith fadd (smulL (Acoef 3 1) v2)
        (List.zipWith fadd (smulL (Acoef 3 2) v3) (smulL (Acoef 3 3) v4)))) dts)
  let r5 := interpCall f x5 y5 ts
  let u5 := r5.1.map Prod.fst
  let v5 := r5.1.map Prod.snd
  let x6 := List.zipWith fadd xs (List.zipWith fmul
    (List.zipWith fadd (smulL (Acoef 4 0) u1)
      (List.zipWith fadd (smulL (Acoef 4 1) u2)
        (List.zipWith fadd (smulL (Acoef 4 2) u3)
          (List.zipWith fadd (smulL (Acoef 4 3) u4) (smulL (Acoef 4 4) u5))))) dts)
  let y6 := List.zipWith fadd ys (List.zipWith fmul
    (List.zipWith fadd (smulL (Acoef 4 0) v1)
      (List.zipWith fadd (smulL (Acoef 4 1) v2)
        (List.zipWith fadd (smulL (Acoef 4 2) v3)
          (List.zipWith fadd (smulL (Acoef 4 3) v4) (smulL (Acoef 4 4) v5))))) dts)
  let r6 := interpCall f x6 y6 ts
  let u6 := r6.1.map Prod.fst
  let v6 := r6.1.map Prod.snd
  (⟨u1, u2, u3, u4, u5, u6⟩, ⟨v1, v2, v3, v4, v5, v6⟩,
    r1.2 + r2.2 + r3.2 + r4.2 + r5.2 + r6.2)

/-- Working state of the RKF45 inner fixed-step integration: the two
parallel trajectories (4th- and 5th-order) started from copies of the
source coordinates, the time cursor, and the running tally of Velocity
Sampler invocations. -/
structure RState where
  rx4 : List FP
  ry4 : List FP
  rx5 : List FP
  ry5 : List FP
  rt : List FP
  calls : ℕ
deriving DecidableEq

/-- One sub-step of the RKF45 inner loop (lines 358-370): a full
`RFK45_interp` stage evaluation at the 4th-order trajectory combined
with `b4`, then a second, separate `RFK45_interp` stage evaluation at
the 5th-order trajectory combined with `b5`, then the time advance. -/
def RKF45substep (f : Sampler) (dts : List FP) (s : RState) : RState :=
  let q4 := RFK45_interp f s.rx4 s.ry4 dts s.rt
  let X4 := List.zipWith fadd s.rx4 (List.zipWith fmul dts (np_dot b4 q4.1))
  let Y4 := List.zipWith fadd s.ry4 (List.zipWith fmul dts (np_dot b4 q4.2.1))
  let q5 := RFK45_interp f s.rx5 s.ry5 dts s.rt
  let X5 := List.zipWith fadd s.rx5 (List.zipWith fmul dts (np_dot b5 q5.1))
  let Y5 := List.zipWith fadd s.ry5 (List.zipWith fmul dts (np_dot b5 q5.2.1))
  { rx4 := X4, ry4 := Y4, rx5 := X5, ry5 := Y5
    rt := List.zipWith fadd s.rt dts
    calls := s.calls + q4.2.2 + q5.2.2 }

/-- RKF45 tolerance (`tolerance = 5e-2`, line 343). -/
def tolerance : ℚ := 5/100

/-- Squared RMS positional discrepancy between the two trajectories
(lines 372-377): restrict to the particles where the 4th-order
trajectory is finite, sum the squared coordinate differences, divide by
the count.  The count being zero gives `0/0`, i.e. NaN (`none`); a NaN
among the selected 5th-order coordinates also propagates to `none`.
The source compares `sigma = sqrt` of this quantity against `tolerance`;
the embedding compares the radicand against `tolerance²`. -/
def sigmaSq (X4 Y4 X5 Y5 : List FP) : FP :=
  let sel := (zip4 X4 Y4 X5 Y5).filter (fun p => isFin p.1 && isFin p.2.1)
  let num : ℕ := sel.length
  let S : FP := sel.foldl
    (fun acc p => fadd acc (fadd (fsq (fsub p.2.2.1 p.1)) (fsq (fsub p.2.2.2 p.2.1))))
    (some 0)
  fdiv S (some (num : ℚ))

/-- The acceptance test `(sigma <= tolerance) or np.isnan(sigma)`
(line 380), with `sigma ≤ tolerance` rendered as `sigma² ≤ tolerance²`. -/
def acceptB : FP → Bool
  | none => true
  | some s => decide (s ≤ tolerance ^ 2)

/-- The while-loop continuation test `(sigma > tolerance) or
np.isnan(sigma)` (line 349). -/
def contB : FP → Bool
  | none => true
  | some s => decide (tolerance ^ 2 < s)

/-- The complete inner fixed-step integration of `M = scale * N`
sub-steps from the original source coordinates (lines 350-370). -/
def RKF45trajAt (f : Sampler) (st : Advect) (M : ℤ) : RState :=
  let dts : List FP := st.t.map (fun tq => fdiv (some (st.t0 - tq)) (some (M : ℚ)))
  let init : RState :=
    { rx4 := st.x.map some, ry4 := st.y.map some
      rx5 := st.x.map some, ry5 := st.y.map some
      rt := st.t.map some, calls := 0 }
  loopN (RKF45substep f dts) M.toNat init

/-- The squared RMS discrepancy of the two trajectories recomputed at a
given `scale` (the quantity the source's `sigma` is the square root of). -/
def RKF45sigmaAt (f : Sampler) (st : Advect) (N : ℤ) (scale : ℕ) : FP :=
  let r := RKF45trajAt f st ((scale : ℤ) * N)
  sigmaSq r.rx4 r.ry4 r.rx5 r.ry5

/-- The RKF45 outer step-doubling loop (lines 349-384), fuel-indexed:
the source `while` loop has no iteration bound, so `none` means the
loop is still running after `fuel` iterations.  The initial `sigma` is
`np.inf`, which exceeds `tolerance` and is not NaN, so the body always
runs at least once; the loop is therefore modelled body-first.  On
success the result carries the final coordinates and the `scale` of the
accepted iteration. -/
def RKF45loop (f : Sampler) (st : Advect) (N : ℤ) :
    ℕ → ℕ → List FP → List FP → Option (List FP × List FP × ℕ)
  | 0, _, _, _ => none
  | fuel + 1, scale, x0, y0 =>
    let r := RKF45trajAt f st ((scale : ℤ) * N)
    let sg := sigmaSq r.rx4 r.ry4 r.rx5 r.ry5
    let x0' := if acceptB sg then r.rx4 else x0
    let y0' := if acceptB sg then r.ry4 else y0
    let scale' := if acceptB sg then scale else 2 * scale
    if contB sg then RKF45loop f st N fuel scale' x0' y0'
    else some (x0', y0', scale)

/-- `Advect.RKF45` (lines 310-386): run the step-doubling loop starting
at `scale = 1` with `x0`, `y0` initialised to copies of the source
coordinates; write the accepted trajectory into `x0`, `y0`. -/
def Advect.RKF45 (st : Advect) (f : Sampler) (N : ℤ) (fuel : ℕ) : Option Advect :=
  (RKF45loop f st N fuel 1 (st.x.map some) (st.y.map some)).map
    (fun r => { st with x0 := some r.1, y0 := some r.2.1 })

/-- `Advect.translate` (lines 154-224): compute the step count through
the Step Planner, then dispatch on the integrator selector string;
an unrecognized selector raises `ValueError("Invalid advection
function")` without running any integrator.  (The object's `t` is a
per-particle array and its `t0` a scalar, matching the attribute shapes
modelled by `Advect`.)  For the fuel-indexed RKF45 the payload is
`none` when the adaptive loop has not returned within `fuel`
iterations. -/
def Advect.translate (st : Advect) (f : Sampler) (integrator : String)
    (Nopt : Option ℤ) (step : ℚ) (fuel : ℕ) : Except String (Option Advect) :=
  let N := plannerN Nopt (TS.array st.t) (TS.scalar st.t0) step
  if integrator = "euler" then .ok (some (st.euler f N))
  else if integrator = "RK4" then .ok (some (st.RK4 f N))
  else if integrator = "RKF45" then .ok (st.RKF45 f N fuel)
  else .error "Invalid advection function"

/-- The `Advect.distance` diagnostic (lines 516-531), modelled by its
radicand: the source computes `sqrt((x0 - x)² + (y0 - y)²)` inside a
`try` block and returns `None` when `x0`/`y0` are still unset (the
subtraction raises).  `distanceSq st = some ds` means the distances are
the elementwise square roots of `ds`. -/
def Advect.distanceSq (st : Advect) : Option (List FP) :=
  match st.x0, st.y0 with
  | some xs0, some ys0 =>
    some (List.zipWith fadd
      (List.zipWith (fun a q => fsq (fsub a (some q))) xs0 st.x)
      (List.zipWith (fun a q => fsq (fsub a (some q))) ys0 st.y))
  | _, _ => none

/-- Per-particle view of one Euler sub-step: the source's elementwise
array operations act independently on each particle. -/
def eStep1 (f : Sampler) (d : FP) (p : FP × FP × FP) : FP × FP × FP :=
  (fadd p.1 (fmul (f p.1 p.2.1 p.2.2).1 d),
   fadd p.2.1 (fmul (f p.1 p.2.1 p.2.2).2 d),
   fadd p.2.2 d)

/-- Per-particle view of one RK4 sub-step. -/
def rkStep1 (f : Sampler) (d : FP) (p : FP × FP × FP) : FP × FP × FP :=
  let uv1 := f p.1 p.2.1 p.2.2
  let x2 := fadd p.1 (fmul (fmul (some (1/2)) uv1.1) d)
  let y2 := fadd p.2.1 (fmul (fmul (some (1/2)) uv1.2) d)
  let uv2 := f x2 y2 p.2.2
  let x3 := fadd p.1 (fmul (fmul (some (1/2)) uv2.1) d)
  let y3 := fadd p.2.1 (fmul (fmul (some (1/2)) uv2.2) d)
  let uv3 := f x3 y3 p.2.2
  let x4 := fadd p.1 (fmul uv3.1 d)
  let y4 := fadd p.2.1 (fmul uv3.2 d)
  let uv4 := f x4 y4 p.2.2
  let sumU := fadd (fadd (fadd uv1.1 (fmul (some 2) uv2.1)) (fmul (some 2) uv3.1)) uv4.1
  let sumV := fadd (fadd (fadd uv1.2 (fmul (some 2) uv2.2)) (fmul (some 2) uv3.2)) uv4.2
  (fadd p.1 (fdiv (fmul d sumU) (some 6)),
   fadd p.2.1 (fdiv (fmul d sumV) (some 6)),
   fadd p.2.2 d)

/-- Per-particle view of the six stage velocities of one `RFK45_interp`
call. -/
structure StageP where
  p1 : FP
  p2 : FP
  p3 : FP
  p4 : FP
  p5 : FP
  p6 : FP
deriving DecidableEq

/-- Per-particle view of `RFK45_interp`: the six stage velocity samples
(U parts, V parts) for one particle. -/
def rfk1 (f : Sampler) (x y d t : FP) : StageP × StageP :=
  let uv1 := f x y t
  let x2 := fadd x (fmul (fmul (some (Acoef 0 0)) uv1.1) d)
  let y2 := fadd y (fmul (fmul (some (Acoef 0 0)) uv1.2) d)
  let uv2 := f x2 y2 t
  let x3 := fadd x (fmul (fadd (fmul (some (Acoef 1 0)) uv1.1)
    (fmul (some (Acoef 1 1)) uv2.1)) d)
  let y3 := fadd y (fmul (fadd (fmul (some (Acoef 1 0)) uv1.2)
    (fmul (some (Acoef 1 1)) uv2.2)) d)
  let uv3 := f x3 y3 t
  let x4 := fadd x (fmul (fadd (fmul (some (Acoef 2 0)) uv1.1)
    (fadd (fmul (some (Acoef 2 1)) uv2.1) (fmul (some (Acoef 2 2)) uv3.1))) d)
  let y4 := fadd y (fmul (fadd (fmul (some (Acoef 2 0)) uv1.2)
    (fadd (fmul (some (Acoef 2 1)) uv2.2) (fmul (some (Acoef 2 2)) uv3.2))) d)
  let uv4 := f x4 y4 t
  let x5 := fadd x (fmul (fadd (fmul (some (Acoef 3 0)) uv1.1)
    (fadd (fmul (some (Acoef 3 1)) uv2.1)
      (fadd (fmul (some (Acoef 3 2)) uv3.1) (fmul (some (Acoef 3 3)) uv4.1)))) d)
  let y5 := fadd y (fmul (fadd (fmul (some (Acoef 3 0)) uv1.2)
    (fadd (fmul (some (Acoef 3 1)) uv2.2)
      (fadd (fmul (some (Acoef 3 2)) uv3.2) (fmul (some (Acoef 3 3)) uv4.2)))) d)
  let uv5 := f x5 y5 t
  let x6 := fadd x (fmul (fadd (fmul (some (Acoef 4 0)) uv1.1)
    (fadd (fmul (some (Acoef 4 1)) uv2.1)
      (fadd (fmul (some (Acoef 4 2)) uv3.1)
        (fadd (fmul (some (Acoef 4 3)) uv4.1) (fmul (some (Acoef 4 4)) uv5.1))))) d)
  let y6 := fadd y (fmul (fadd (fmul (some (Acoef 4 0)) uv1.2)
    (fadd (fmul (some (Acoef 4 1)) uv2.2)
      (fadd (fmul (some (Acoef 4 2)) uv3.2)
        (fadd (fmul (some (Acoef 4 3)) uv4.2) (fmul (some (Acoef 4 4)) uv5.2))))) d)
  let uv6 := f x6 y6 t
  (⟨uv1.1, uv2.1, uv3.1, uv4.1, uv5.1, uv6.1⟩,
   ⟨uv1.2, uv2.2, uv3.2, uv4.2, uv5.2, uv6.2⟩)

/-- Per-particle weighted stage sum (`np.dot` of a weight vector with
the stage velocities of one particle). -/
def pdot (bs : List ℚ) (p : StageP) : FP :=
  fadd (fmul (some (bs.getD 0 0)) p.p1)
    (fadd (fmul (some (bs.getD 1 0)) p.p2)
      (fadd (fmul (some (bs.getD 2 0)) p.p3)
        (fadd (fmul (some (bs.getD 3 0)) p.p4)
          (fadd (fmul (some (bs.getD 4 0)) p.p5)
            (fmul (some (bs.getD 5 0)) p.p6)))))

/-- Per-particle view of one RKF45 sub-step (state: `X4, Y4, X5, Y5, t`
for one particle). -/
def rkfStep1 (f : Sampler) (d : FP) (p : FP × FP × FP × FP × FP) :
    FP × FP × FP × FP × FP :=
  let q4 := rfk1 f p.1 p.2.1 d p.2.2.2.2
  let q5 := rfk1 f p.2.2.1 p.2.2.2.1 d p.2.2.2.2
  (fadd p.1 (fmul d (pdot b4 q4.1)),
   fadd p.2.1 (fmul d (pdot b4 q4.2)),
   fadd p.2.2.1 (fmul d (pdot b5 q5.1)),
   fadd p.2.2.2.1 (fmul d (pdot b5 q5.2)),
   fadd p.2.2.2.2 d)

/-! ### Theorems -/

lemma loopN_one (g : α → α) (s : α) : loopN g 1 s = g s := rfl

/-- One step of the list-level Euler recurrence acts on the head
particle by `eStep1` and on the tail particles independently. -/
lemma eulerStep_cons (f : Sampler) (d : FP) (D : List FP) (x y t : FP)
    (X Y T : List FP) :
    eulerStep f (d :: D) ⟨x :: X, y :: Y, t :: T⟩ =
      ⟨(eStep1 f d (x, y, t)).1 :: (eulerStep f D ⟨X, Y, T⟩).ex,
       (eStep1 f d (x, y, t)).2.1 :: (eulerStep f D ⟨X, Y, T⟩).ey,
       (eStep1 f d (x, y, t)).2.2 :: (eulerStep f D ⟨X, Y, T⟩).et⟩ := by
  simp [eulerStep, eStep1, interpCall]

lemma eulerLoop_cons (f : Sampler) (d : FP) (D : List FP) (k : ℕ) :
    ∀ (x y t : FP) (X Y T : List FP),
    loopN (eulerStep f (d :: D)) k ⟨x :: X, y :: Y, t :: T⟩ =
      ⟨(loopN (eStep1 f d) k (x, y, t)).1 :: (loopN (eulerStep f D) k ⟨X, Y, T⟩).ex,
       (loopN (eStep1 f d) k (x, y, t)).2.1 :: (loopN (eulerStep f D) k ⟨X, Y, T⟩).ey,
       (loopN (eStep1 f d) k (x, y, t)).2.2 :: (loopN (eulerStep f D) k ⟨X, Y, T⟩).et⟩ := by
  induction k with
  | zero => intro x y t X Y T; rfl
  | succ n ih =>
    intro x y t X Y T
    rw [loopN_succ, eulerStep_cons, ih]
    rw [loopN_succ, loopN_succ]

lemma eulerLoop_nil (f : Sampler) (D : List FP) (k : ℕ) :
    loopN (eulerStep f D) k ⟨[], [], []⟩ = ⟨[], [], []⟩ := by
  induction k with
  | zero => rfl
  | succ n ih => rw [loopN_succ]; exact ih

/-- A per-particle step that adds constant increments to a finite state
iterates to the obvious closed form. -/
lemma loopN_affine3 (g : FP × FP × FP → FP × FP × FP) (du dv dw : ℚ)
    (hg : ∀ a b c : ℚ, g (some a, some b, some c) =
      (some (a + du), some (b + dv), some (c + dw))) :
    ∀ (k : ℕ) (a b c : ℚ), loopN g k (some a, some b, some c) =
      (some (a + k * du), some (b + k * dv), some (c + k * dw)) := by
  intro k
  induction k with
  | zero => intro a b c; simp
  | succ n ih =>
    intro a b c
    rw [loopN_succ, hg, ih]
    refine Prod.ext ?_ (Prod.ext ?_ ?_) <;> simp <;> ring

lemma eStep1_const (u v dq a b c : ℚ) :
    eStep1 (constSampler u v) (some dq) (some a, some b, some c) =
      (some (a + u * dq), some (b + v * dq), some (c + dq)) := by
  simp [eStep1, constSampler]

lemma eulerLoop_const (u v t0 Nq : ℚ) :
    ∀ (X Y T : List ℚ), Y.length = X.length → T.length = X.length → ∀ k : ℕ,
    loopN (eulerStep (constSampler u v) (T.map (fun tq => some ((t0 - tq) / Nq)))) k
      ⟨X.map some, Y.map some, T.map some⟩ =
      ⟨List.zipWith (fun a c => some (a + k * (u * ((t0 - c) / Nq)))) X T,
       List.zipWith (fun b c => some (b + k * (v * ((t0 - c) / Nq)))) Y T,
       T.map (fun c => some (c + k * ((t0 - c) / Nq)))⟩ := by
  intro X
  induction X with
  | nil =>
    intro Y T hY hT k
    rw [List.length_nil, List.length_eq_zero] at hY hT
    subst hY; subst hT
    simpa using eulerLoop_nil _ _ k
  | cons a X ih =>
    intro Y T hY hT k
    cases Y with
    | nil => simp at hY
    | cons b Y =>
      cases T with
      | nil => simp at hT
      | cons c T =>
        simp only [List.length_cons, Nat.succ.injEq] at hY hT
        simp only [List.map_cons, List.zipWith_cons_cons]
        rw [eulerLoop_cons, ih Y T hY hT k,
          loopN_affine3 (eStep1 (constSampler u v) (some ((t0 - c) / Nq)))
            (u * ((t0 - c) / Nq)) (v * ((t0 - c) / Nq)) ((t0 - c) / Nq)
            (fun a b c2 => eStep1_const u v ((t0 - c) / Nq) a b c2) k a b c]

/-- One step of the list-level RK4 recurrence acts on the head particle
by `rkStep1` and on the tail particles independently. -/
lemma rk4Step_cons (f : Sampler) (d : FP) (D : List FP) (x y t : FP)
    (X Y T : List FP) :
    rk4Step f (d :: D) ⟨x :: X, y :: Y, t :: T⟩ =
      ⟨(rkStep1 f d (x, y, t)).1 :: (rk4Step f D ⟨X, Y, T⟩).ex,
       (rkStep1 f d (x, y, t)).2.1 :: (rk4Step f D ⟨X, Y, T⟩).ey,
       (rkStep1 f d (x, y, t)).2.2 :: (rk4Step f D ⟨X, Y, T⟩).et⟩ := by
  simp [rk4Step, rkStep1, interpCall, smulL]

lemma rk4Loop_cons (f : Sampler) (d : FP) (D : List FP) (k : ℕ) :
    ∀ (x y t : FP) (X Y T : List FP),
    loopN (rk4Step f (d :: D)) k ⟨x :: X, y :: Y, t :: T⟩ =
      ⟨(loopN (rkStep1 f d) k (x, y, t)).1 :: (loopN (rk4Step f D) k ⟨X, Y, T⟩).ex,
       (loopN (rkStep1 f d) k (x, y, t)).2.1 :: (loopN (rk4Step f D) k ⟨X, Y, T⟩).ey,
       (loopN (rkStep1 f d) k (x, y, t)).2.2 :: (loopN (rk4Step f D) k ⟨X, Y, T⟩).et⟩ := by
  induction k with
  | zero => intro x y t X Y T; rfl
  | succ n ih =>
    intro x y t X Y T
    rw [loopN_succ, rk4Step_cons, ih]
    rw [loopN_succ, loopN_succ]

lemma rk4Loop_nil (f : Sampler) (D : List FP) (k : ℕ) :
    loopN (rk4Step f D) k ⟨[], [], []⟩ = ⟨[], [], []⟩ := by
  induction k with
  | zero => rfl
  | succ n ih => rw [loopN_succ]; exact ih

lemma rkStep1_const (u v dq a b c : ℚ) :
    rkStep1 (constSampler u v) (some dq) (some a, some b, some c) =
      (some (a + u * dq), some (b + v * dq), some (c + dq)) := by
  simp [rkStep1, constSampler, fdiv, Prod.ext_iff]
  constructor <;> ring

lemma rk4Loop_const (u v t0 Nq : ℚ) :
    ∀ (X Y T : List ℚ), Y.length = X.length → T.length = X.length → ∀ k : ℕ,
    loopN (rk4Step (constSampler u v) (T.map (fun tq => some ((t0 - tq) / Nq)))) k
      ⟨X.map some, Y.map some, T.map some⟩ =
      ⟨List.zipWith (fun a c => some (a + k * (u * ((t0 - c) / Nq)))) X T,
       List.zipWith (fun b c => some (b + k * (v * ((t0 - c) / Nq)))) Y T,
       T.map (fun c => some (c + k * ((t0 - c) / Nq)))⟩ := by
  intro X
  induction X with
  | nil =>
    intro Y T hY hT k
    rw [List.length_nil, List.length_eq_zero] at hY hT
    subst hY; subst hT
    simpa using rk4Loop_nil _ _ k
  | cons a X ih =>
    intro Y T hY hT k
    cases Y with
    | nil => simp at hY
    | cons b Y =>
      cases T with
      | nil => simp at hT
      | cons c T =>
        simp only [List.length_cons, Nat.succ.injEq] at hY hT
        simp only [List.map_cons, List.zipWith_cons_cons]
        rw [rk4Loop_cons, ih Y T hY hT k,
          loopN_affine3 (rkStep1 (constSampler u v) (some ((t0 - c) / Nq)))
            (u * ((t0 - c) / Nq)) (v * ((t0 - c) / Nq)) ((t0 - c) / Nq)
            (fun a b c2 => rkStep1_const u v ((t0 - c) / Nq) a b c2) k a b c]

lemma np_dot_cons (bs : List ℚ) (a1 a2 a3 a4 a5 a6 : FP) (l1 l2 l3 l4 l5 l6 : List FP) :
    np_dot bs ⟨a1 :: l1, a2 :: l2, a3 :: l3, a4 :: l4, a5 :: l5, a6 :: l6⟩ =
      pdot bs ⟨a1, a2, a3, a4, a5, a6⟩ :: np_dot bs ⟨l1, l2, l3, l4, l5, l6⟩ := by
  simp [np_dot, pdot, smulL]

/-- `RFK45_interp` acts on the head particle by `rfk1` and on the tail
particles independently. -/
lemma RFK45_interp_cons (f : Sampler) (x y d t : FP) (X Y D T : List FP) :
    RFK45_interp f (x :: X) (y :: Y) (d :: D) (t :: T) =
      (⟨(rfk1 f x y d t).1.p1 :: (RFK45_interp f X Y D T).1.s1,
        (rfk1 f x y d t).1.p2 :: (RFK45_interp f X Y D T).1.s2,
        (rfk1 f x y d t).1.p3 :: (RFK45_interp f X Y D T).1.s3,
        (rfk1 f x y d t).1.p4 :: (RFK45_interp f X Y D T).1.s4,
        (rfk1 f x y d t).1.p5 :: (RFK45_interp f X Y D T).1.s5,
        (rfk1 f x y d t).1.p6 :: (RFK45_interp f X Y D T).1.s6⟩,
       ⟨(rfk1 f x y d t).2.p1 :: (RFK45_interp f X Y D T).2.1.s1,
        (rfk1 f x y d t).2.p2 :: (RFK45_interp f X Y D T).2.1.s2,
        (rfk1 f x y d t).2.p3 :: (RFK45_interp f X Y D T).2.1.s3,
        (rfk1 f x y d t).2.p4 :: (RFK45_interp f X Y D T).2.1.s4,
        (rfk1 f x y d t).2.p5 :: (RFK45_interp f X Y D T).2.1.s5,
        (rfk1 f x y d t).2.p6 :: (RFK45_interp f X Y D T).2.1.s6⟩,
       6) := by
  simp [RFK45_interp, rfk1, interpCall, smulL]

/-- One RKF45 sub-step acts on the head particle by `rkfStep1` and on
the tail particles independently; the sampler-call tally is shared. -/
lemma RKF45substep_cons (f : Sampler) (d : FP) (D : List FP)
    (x4 y4 x5 y5 t : FP) (X4 Y4 X5 Y5 T : List FP) (n : ℕ) :
    RKF45substep f (d :: D) ⟨x4 :: X4, y4 :: Y4, x5 :: X5, y5 :: Y5, t :: T, n⟩ =
      { rx4 := (rkfStep1 f d (x4, y4, x5, y5, t)).1 ::
          (RKF45substep f D ⟨X4, Y4, X5, Y5, T, n⟩).rx4
        ry4 := (rkfStep1 f d (x4, y4, x5, y5, t)).2.1 ::
          (RKF45substep f D ⟨X4, Y4, X5, Y5, T, n⟩).ry4
        rx5 := (rkfStep1 f d (x4, y4, x5, y5, t)).2.2.1 ::
          (RKF45substep f D ⟨X4, Y4, X5, Y5, T, n⟩).rx5
        ry5 := (rkfStep1 f d (x4, y4, x5, y5, t)).2.2.2.1 ::
          (RKF45substep f D ⟨X4, Y4, X5, Y5, T, n⟩).ry5
        rt := (rkfStep1 f d (x4, y4, x5, y5, t)).2.2.2.2 ::
          (RKF45substep f D ⟨X4, Y4, X5, Y5, T, n⟩).rt
        calls := (RKF45substep f D ⟨X4, Y4, X5, Y5, T, n⟩).calls } := by
  simp only [RKF45substep, RFK45_interp_cons, np_dot_cons, List.zipWith_cons_cons,
    rkfStep1]
  rfl

lemma rkfLoop_cons (f : Sampler) (d : FP) (D : List FP) (k : ℕ) :
    ∀ (x4 y4 x5 y5 t : FP) (X4 Y4 X5 Y5 T : List FP) (n : ℕ),
    loopN (RKF45substep f (d :: D)) k ⟨x4 :: X4, y4 :: Y4, x5 :: X5, y5 :: Y5, t :: T, n⟩ =
      { rx4 := (loopN (rkfStep1 f d) k (x4, y4, x5, y5, t)).1 ::
          (loopN (RKF45substep f D) k ⟨X4, Y4, X5, Y5, T, n⟩).rx4
        ry4 := (loopN (rkfStep1 f d) k (x4, y4, x5, y5, t)).2.1 ::
          (loopN (RKF45substep f D) k ⟨X4, Y4, X5, Y5, T, n⟩).ry4
        rx5 := (loopN (rkfStep1 f d) k (x4, y4, x5, y5, t)).2.2.1 ::
          (loopN (RKF45substep f D) k ⟨X4, Y4, X5, Y5, T, n⟩).rx5
        ry5 := (loopN (rkfStep1 f d) k (x4, y4, x5, y5, t)).2.2.2.1 ::
          (loopN (RKF45substep f D) k ⟨X4, Y4, X5, Y5, T, n⟩).ry5
        rt := (loopN (rkfStep1 f d) k (x4, y4, x5, y5, t)).2.2.2.2 ::
          (loopN (RKF45substep f D) k ⟨X4, Y4, X5, Y5, T, n⟩).rt
        calls := (loopN (RKF45substep f D) k ⟨X4, Y4, X5, Y5, T, n⟩).calls } := by
  induction k with
  | zero => intro x4 y4 x5 y5 t X4 Y4 X5 Y5 T n; rfl
  | succ m ih =>
    intro x4 y4 x5 y5 t X4 Y4 X5 Y5 T n
    rw [loopN_succ, RKF45substep_cons, ih]
    rw [loopN_succ, loopN_succ]

lemma rkfLoop_nil (f : Sampler) (D : List FP) (k : ℕ) : ∀ n : ℕ,
    (loopN (RKF45substep f D) k ⟨[], [], [], [], [], n⟩).rx4 = [] ∧
    (loopN (RKF45substep f D) k ⟨[], [], [], [], [], n⟩).ry4 = [] ∧
    (loopN (RKF45substep f D) k ⟨[], [], [], [], [], n⟩).rx5 = [] ∧
    (loopN (RKF45substep f D) k ⟨[], [], [], [], [], n⟩).ry5 = [] ∧
    (loopN (RKF45substep f D) k ⟨[], [], [], [], [], n⟩).rt = [] := by
  induction k with
  | zero => intro n; exact ⟨rfl, rfl, rfl, rfl, rfl⟩
  | succ m ih =>
    intro n
    rw [loopN_succ]
    have hstep : RKF45substep f D ⟨[], [], [], [], [], n⟩ =
        ⟨[], [], [], [], [], n + 6 + 6⟩ := by
      simp [RKF45substep, RFK45_interp, interpCall, zipWith3, np_dot, smulL]
    rw [hstep]
    exact ih (n + 6 + 6)

lemma rfk1_const (u v : ℚ) (x y d t : FP) :
    rfk1 (constSampler u v) x y d t =
      (⟨some u, some u, some u, some u, some u, some u⟩,
       ⟨some v, some v, some v, some v, some v, some v⟩) := by
  simp [rfk1, constSampler]

/-- The fourth-order weights sum to one: on a constant stage column the
weighted stage sum returns the constant. -/
lemma pdot_b4_const (u : ℚ) :
    pdot b4 ⟨some u, some u, some u, some u, some u, some u⟩ = some u := by
  simp [pdot, b4]
  ring

/-- The fifth-order weights also sum to one. -/
lemma pdot_b5_const (u : ℚ) :
    pdot b5 ⟨some u, some u, some u, some u, some u, some u⟩ = some u := by
  simp [pdot, b5]
  ring

lemma rkfStep1_const (u v dq a4q b4q a5q b5q c : ℚ) :
    rkfStep1 (constSampler u v) (some dq) (some a4q, some b4q, some a5q, some b5q, some c) =
      (some (a4q + dq * u), some (b4q + dq * v), some (a5q + dq * u),
       some (b5q + dq * v), some (c + dq)) := by
  simp [rkfStep1, rfk1_const, pdot_b4_const, pdot_b5_const]

lemma loopN_affine5 (g : FP × FP × FP × FP × FP → FP × FP × FP × FP × FP) (du dv dw : ℚ)
    (hg : ∀ a b a2 b2 c : ℚ, g (some a, some b, some a2, some b2, some c) =
      (some (a + du), some (b + dv), some (a2 + du), some (b2 + dv), some (c + dw))) :
    ∀ (k : ℕ) (a b a2 b2 c : ℚ), loopN g k (some a, some b, some a2, some b2, some c) =
      (some (a + k * du), some (b + k * dv), some (a2 + k * du),
       some (b2 + k * dv), some (c + k * dw)) := by
  intro k
  induction k with
  | zero => intro a b a2 b2 c; simp
  | succ n ih =>
    intro a b a2 b2 c
    rw [loopN_succ, hg, ih]
    refine Prod.ext ?_ (Prod.ext ?_ (Prod.ext ?_ (Prod.ext ?_ ?_))) <;> simp <;> ring

lemma rkfLoop_const (u v t0 Mq : ℚ) :
    ∀ (X Y T : List ℚ), Y.length = X.length → T.length = X.length → ∀ (k n : ℕ),
    (loopN (RKF45substep (constSampler u v) (T.map (fun tq => some ((t0 - tq) / Mq)))) k
        ⟨X.map some, Y.map some, X.map some, Y.map some, T.map some, n⟩).rx4 =
      List.zipWith (fun a c => some (a + k * (((t0 - c) / Mq) * u))) X T ∧
    (loopN (RKF45substep (constSampler u v) (T.map (fun tq => some ((t0 - tq) / Mq)))) k
        ⟨X.map some, Y.map some, X.map some, Y.map some, T.map some, n⟩).ry4 =
      List.zipWith (fun b c => some (b + k * (((t0 - c) / Mq) * v))) Y T ∧
    (loopN (RKF45substep (constSampler u v) (T.map (fun tq => some ((t0 - tq) / Mq)))) k
        ⟨X.map some, Y.map some, X.map some, Y.map some, T.map some, n⟩).rx5 =
      List.zipWith (fun a c => some (a + k * (((t0 - c) / Mq) * u))) X T ∧
    (loopN (RKF45substep (constSampler u v) (T.map (fun tq => some ((t0 - tq) / Mq)))) k
        ⟨X.map some, Y.map some, X.map some, Y.map some, T.map some, n⟩).ry5 =
      List.zipWith (fun b c => some (b + k * (((t0 - c) / Mq) * v))) Y T := by
  intro X
  induction X with
  | nil =>
    intro Y T hY hT k n
    rw [List.length_nil, List.length_eq_zero] at hY hT
    subst hY; subst hT
    obtain ⟨h1, h2, h3, h4, _⟩ := rkfLoop_nil (constSampler u v) [] k n
    exact ⟨by simpa using h1, by simpa using h2, by simpa using h3, by simpa using h4⟩
  | cons a X ih =>
    intro Y T hY hT k n
    cases Y with
    | nil => simp at hY
    | cons b Y =>
      cases T with
      | nil => simp at hT
      | cons c T =>
        simp only [List.length_cons, Nat.succ.injEq] at hY hT
        simp only [List.map_cons, List.zipWith_cons_cons]
        rw [rkfLoop_cons]
        have hhead := loopN_affine5 (rkfStep1 (constSampler u v) (some ((t0 - c) / Mq)))
          (((t0 - c) / Mq) * u) (((t0 - c) / Mq) * v) ((t0 - c) / Mq)
          (fun a4q b4q a5q b5q cq => rkfStep1_const u v ((t0 - c) / Mq) a4q b4q a5q b5q cq)
          k a b a b c
        obtain ⟨ih1, ih2, ih3, ih4⟩ := ih Y T hY hT k n
        refine ⟨?_, ?_, ?_, ?_⟩ <;>
          simp only [hhead, ih1, ih2, ih3, ih4]

lemma isFin_iff (a : FP) : isFin a = true ↔ ∃ q : ℚ, a = some q := by
  cases a <;> simp [isFin]

lemma mem_zipWith_some (g : ℚ → ℚ → ℚ) :
    ∀ (X T : List ℚ) (a : FP), a ∈ List.zipWith (fun x t => some (g x t)) X T →
      isFin a = true := by
  intro X
  induction X with
  | nil => intro T a h; simp at h
  | cons x X ih =>
    intro T a h
    cases T with
    | nil => simp at h
    | cons t T =>
      rw [List.zipWith_cons_cons, List.mem_cons] at h
      rcases h with h | h
      · subst h; rfl
      · exact ih T a h

lemma mem_zip4_self : ∀ (A B : List FP) (p : FP × FP × FP × FP), p ∈ zip4 A B A B →
    p.2.2.1 = p.1 ∧ p.2.2.2 = p.2.1 ∧ p.1 ∈ A ∧ p.2.1 ∈ B := by
  intro A
  induction A with
  | nil => intro B p h; simp [zip4] at h
  | cons a A ih =>
    intro B p h
    cases B with
    | nil => simp [zip4] at h
    | cons b B =>
      rw [zip4_cons, List.mem_cons] at h
      rcases h with h | h
      · subst h; exact ⟨rfl, rfl, List.mem_cons_self _ _, List.mem_cons_self _ _⟩
      · obtain ⟨h1, h2, h3, h4⟩ := ih B p h
        exact ⟨h1, h2, List.mem_cons_of_mem _ h3, List.mem_cons_of_mem _ h4⟩

lemma sigma_fold_zero :
    ∀ (l : List (FP × FP × FP × FP)) (s : ℚ),
    (∀ p ∈ l, fadd (fsq (fsub p.2.2.1 p.1)) (fsq (fsub p.2.2.2 p.2.1)) = some 0) →
    l.foldl (fun acc p =>
      fadd acc (fadd (fsq (fsub p.2.2.1 p.1)) (fsq (fsub p.2.2.2 p.2.1)))) (some s) = some s := by
  intro l
  induction l with
  | nil => intro s _; rfl
  | cons p l ih =>
    intro s h
    rw [List.foldl_cons, h p (List.mem_cons_self _ _), fadd_some, add_zero]
    exact ih s (fun q hq => h q (List.mem_cons_of_mem _ hq))

/-- On two identical all-finite nonempty trajectories the RKF45 error
estimator returns exactly zero. -/
lemma sigmaSq_self (A B : List FP)
    (hA : ∀ a ∈ A, isFin a = true) (hB : ∀ b ∈ B, isFin b = true)
    (hne : A ≠ []) (hne2 : B ≠ []) : sigmaSq A B A B = some 0 := by
  have hfil : (zip4 A B A B).filter (fun p => isFin p.1 && isFin p.2.1) = zip4 A B A B := by
    apply List.filter_eq_self.mpr
    intro p hp
    obtain ⟨_, _, hmA, hmB⟩ := mem_zip4_self A B p hp
    simp [hA p.1 hmA, hB p.2.1 hmB]
  have hterms : ∀ p ∈ zip4 A B A B,
      fadd (fsq (fsub p.2.2.1 p.1)) (fsq (fsub p.2.2.2 p.2.1)) = some 0 := by
    intro p hp
    obtain ⟨h1, h2, hmA, hmB⟩ := mem_zip4_self A B p hp
    obtain ⟨qa, hqa⟩ := (isFin_iff p.1).mp (hA p.1 hmA)
    obtain ⟨qb, hqb⟩ := (isFin_iff p.2.1).mp (hB p.2.1 hmB)
    rw [h1, h2, hqa, hqb]
    simp [fsub, fsq, fmul, fadd]
  have hlen : (zip4 A B A B).length ≠ 0 := by
    cases A with
    | nil => exact absurd rfl hne
    | cons a A =>
      cases B with
      | nil => exact absurd rfl hne2
      | cons b B => simp [zip4_cons]
  show fdiv _ _ = _
  rw [hfil, sigma_fold_zero (zip4 A B A B) 0 hterms]
  rw [fdiv, if_neg (by exact_mod_cast hlen)]
  norm_num

lemma map_fdiv_const (t0 Mq : ℚ) (hM : Mq ≠ 0) (T : List ℚ) :
    T.map (fun tq => fdiv (some (t0 - tq)) (some Mq)) =
      T.map (fun tq => some ((t0 - tq) / Mq)) := by
  induction T with
  | nil => rfl
  | cons c T ih => simp only [List.map_cons, fdiv_some_of_ne _ _ hM, ih]

/-- Unfolding of one iteration of the RKF45 outer step-doubling loop. -/
lemma RKF45loop_succ (f : Sampler) (st : Advect) (N : ℤ) (fuel scale : ℕ)
    (x0 y0 : List FP) :
    RKF45loop f st N (fuel + 1) scale x0 y0 =
      (let r := RKF45trajAt f st ((scale : ℤ) * N)
       let sg := sigmaSq r.rx4 r.ry4 r.rx5 r.ry5
       let x0' := if acceptB sg then r.rx4 else x0
       let y0' := if acceptB sg then r.ry4 else y0
       let scale' := if acceptB sg then scale else 2 * scale
       if contB sg then RKF45loop f st N fuel scale' x0' y0'
       else some (x0', y0', scale)) := rfl

/-- Euler on a constant field moves every particle by exactly
`u·(t0 − t)`, `v·(t0 − t)`. -/
lemma euler_const (u v : ℚ) (st : Advect) (N : ℤ)
    (hY : st.y.length = st.x.length) (hT : st.t.length = st.x.length) (hN : 1 ≤ N) :
    st.euler (constSampler u v) N =
      { st with
        x0 := some (List.zipWith (fun a c => some (a + u * (st.t0 - c))) st.x st.t)
        y0 := some (List.zipWith (fun b c => some (b + v * (st.t0 - c))) st.y st.t) } := by
  have hNq : ((N : ℚ)) ≠ 0 := by
    exact_mod_cast (by omega : N ≠ 0)
  have hcast : ((N.toNat : ℚ)) = (N : ℚ) := by
    exact_mod_cast Int.toNat_of_nonneg (by omega : (0 : ℤ) ≤ N)
  have hfx : (fun (a c : ℚ) => some (a + (N.toNat : ℚ) * (u * ((st.t0 - c) / (N : ℚ))))) =
      (fun (a c : ℚ) => (some (a + u * (st.t0 - c)) : FP)) := by
    funext a c
    rw [hcast]
    congr 1
    field_simp
  have hfy : (fun (b c : ℚ) => some (b + (N.toNat : ℚ) * (v * ((st.t0 - c) / (N : ℚ))))) =
      (fun (b c : ℚ) => (some (b + v * (st.t0 - c)) : FP)) := by
    funext b c
    rw [hcast]
    congr 1
    field_simp
  simp only [Advect.euler, map_fdiv_const st.t0 (N : ℚ) hNq st.t,
    eulerLoop_const u v st.t0 (N : ℚ) st.x st.y st.t hY hT N.toNat, hfx, hfy]

/-- RK4 on a constant field moves every particle by exactly
`u·(t0 − t)`, `v·(t0 − t)`. -/
lemma RK4_const (u v : ℚ) (st : Advect) (N : ℤ)
    (hY : st.y.length = st.x.length) (hT : st.t.length = st.x.length) (hN : 1 ≤ N) :
    st.RK4 (constSampler u v) N =
      { st with
        x0 := some (List.zipWith (fun a c => some (a + u * (st.t0 - c))) st.x st.t)
        y0 := some (List.zipWith (fun b c => some (b + v * (st.t0 - c))) st.y st.t) } := by
  have hNq : ((N : ℚ)) ≠ 0 := by
    exact_mod_cast (by omega : N ≠ 0)
  have hcast : ((N.toNat : ℚ)) = (N : ℚ) := by
    exact_mod_cast Int.toNat_of_nonneg (by omega : (0 : ℤ) ≤ N)
  have hfx : (fun (a c : ℚ) => some (a + (N.toNat : ℚ) * (u * ((st.t0 - c) / (N : ℚ))))) =
      (fun (a c : ℚ) => (some (a + u * (st.t0 - c)) : FP)) := by
    funext a c
    rw [hcast]
    congr 1
    field_simp
  have hfy : (fun (b c : ℚ) => some (b + (N.toNat : ℚ) * (v * ((st.t0 - c) / (N : ℚ))))) =
      (fun (b c : ℚ) => (some (b + v * (st.t0 - c)) : FP)) := by
    funext b c
    rw [hcast]
    congr 1
    field_simp
  simp only [Advect.RK4, map_fdiv_const st.t0 (N : ℚ) hNq st.t,
    rk4Loop_const u v st.t0 (N : ℚ) st.x st.y st.t hY hT N.toNat, hfx, hfy]

lemma RKF45trajAt_const (u v : ℚ) (st : Advect) (M : ℤ)
    (hY : st.y.length = st.x.length) (hT : st.t.length = st.x.length)
    (hM : ((M : ℚ)) ≠ 0) :
    (RKF45trajAt (constSampler u v) st M).rx4 =
      List.zipWith (fun a c => some (a + (M.toNat : ℚ) * (((st.t0 - c) / (M : ℚ)) * u))) st.x st.t ∧
    (RKF45trajAt (constSampler u v) st M).ry4 =
      List.zipWith (fun b c => some (b + (M.toNat : ℚ) * (((st.t0 - c) / (M : ℚ)) * v))) st.y st.t ∧
    (RKF45trajAt (constSampler u v) st M).rx5 =
      List.zipWith (fun a c => some (a + (M.toNat : ℚ) * (((st.t0 - c) / (M : ℚ)) * u))) st.x st.t ∧
    (RKF45trajAt (constSampler u v) st M).ry5 =
      List.zipWith (fun b c => some (b + (M.toNat : ℚ) * (((st.t0 - c) / (M : ℚ)) * v))) st.y st.t := by
  have hbody : RKF45trajAt (constSampler u v) st M =
      loopN (RKF45substep (constSampler u v)
          (st.t.map (fun tq => some ((st.t0 - tq) / (M : ℚ))))) M.toNat
        ⟨st.x.map some, st.y.map some, st.x.map some, st.y.map some, st.t.map some, 0⟩ := by
    simp only [RKF45trajAt, map_fdiv_const st.t0 (M : ℚ) hM st.t]
  rw [hbody]
  exact rkfLoop_const u v st.t0 (M : ℚ) st.x st.y st.t hY hT M.toNat 0

/-- RKF45 on a constant field accepts at the very first outer iteration
(`scale = 1`, the two trajectories agree exactly, the error estimator
returns zero) and moves every particle by exactly `u·(t0 − t)`,
`v·(t0 − t)`. -/
lemma RKF45_const (u v : ℚ) (st : Advect) (N : ℤ) (fuel : ℕ)
    (hY : st.y.length = st.x.length) (hT : st.t.length = st.x.length)
    (hx : st.x ≠ []) (hN : 1 ≤ N) (hf : 1 ≤ fuel) :
    st.RKF45 (constSampler u v) N fuel =
      some { st with
        x0 := some (List.zipWith (fun a c => some (a + u * (st.t0 - c))) st.x st.t)
        y0 := some (List.zipWith (fun b c => some (b + v * (st.t0 - c))) st.y st.t) } := by
  obtain ⟨m, rfl⟩ : ∃ m, fuel = m + 1 := ⟨fuel - 1, by omega⟩
  have hNq : ((N : ℚ)) ≠ 0 := by
    exact_mod_cast (by omega : N ≠ 0)
  obtain ⟨h4x, h4y, h5x, h5y⟩ := RKF45trajAt_const u v st N hY hT hNq
  have hy : st.y ≠ [] := by
    intro h
    rw [h] at hY
    exact hx (List.length_eq_zero.mp hY.symm)
  have ht : st.t ≠ [] := by
    intro h
    rw [h] at hT
    exact hx (List.length_eq_zero.mp hT.symm)
  have hFne : List.zipWith
      (fun a c => some (a + (N.toNat : ℚ) * (((st.t0 - c) / (N : ℚ)) * u))) st.x st.t ≠ [] := by
    cases hcx : st.x with
    | nil => exact absurd hcx hx
    | cons a X =>
      cases hct : st.t with
      | nil => exact absurd hct ht
      | cons c T => simp
  have hGne : List.zipWith
      (fun b c => some (b + (N.toNat : ℚ) * (((st.t0 - c) / (N : ℚ)) * v))) st.y st.t ≠ [] := by
    cases hcy : st.y with
    | nil => exact absurd hcy hy
    | cons b Y =>
      cases hct : st.t with
      | nil => exact absurd hct ht
      | cons c T => simp
  have hsg : sigmaSq (RKF45trajAt (constSampler u v) st (((1 : ℕ) : ℤ) * N)).rx4
      (RKF45trajAt (constSampler u v) st (((1 : ℕ) : ℤ) * N)).ry4
      (RKF45trajAt (constSampler u v) st (((1 : ℕ) : ℤ) * N)).rx5
      (RKF45trajAt (constSampler u v) st (((1 : ℕ) : ℤ) * N)).ry5 = some 0 := by
    rw [show (((1 : ℕ) : ℤ) * N) = N by norm_num]
    rw [h4x, h4y, h5x, h5y]
    exact sigmaSq_self _ _
      (fun a ha => mem_zipWith_some _ st.x st.t a ha)
      (fun b hb => mem_zipWith_some _ st.y st.t b hb) hFne hGne
  have haccept : acceptB (some 0) = true := by
    simp [acceptB, tolerance]
    norm_num
  have hcont : contB (some 0) = false := by
    simp [contB, tolerance]
    norm_num
  have hcast : ((N.toNat : ℚ)) = (N : ℚ) := by
    exact_mod_cast Int.toNat_of_nonneg (by omega : (0 : ℤ) ≤ N)
  have hfx : (fun (a c : ℚ) => some (a + (N.toNat : ℚ) * (((st.t0 - c) / (N : ℚ)) * u))) =
      (fun (a c : ℚ) => (some (a + u * (st.t0 - c)) : FP)) := by
    funext a c
    rw [hcast]
    congr 1
    field_simp
    ring
  have hfy : (fun (b c : ℚ) => some (b + (N.toNat : ℚ) * (((st.t0 - c) / (N : ℚ)) * v))) =
      (fun (b c : ℚ) => (some (b + v * (st.t0 - c)) : FP)) := by
    funext b c
    rw [hcast]
    congr 1
    field_simp
    ring
  unfold Advect.RKF45
  rw [RKF45loop_succ]
  simp only [hsg, haccept, hcont, if_true, if_false, Bool.false_eq_true, Option.map_some']
  rw [show (((1 : ℕ) : ℤ) * N) = N by norm_num, h4x, h4y, hfx, hfy]

/-- Claim C2 counterexample: one sub-step of the RKF45 inner loop, run on
a concrete one-particle state over a constant field, makes twelve
Velocity Sampler invocations, not six: the 4th-order and 5th-order
trajectories each trigger a full six-stage `RFK45_interp` evaluation. -/
theorem C2_counterexample_substep_calls :
    (RKF45substep (constSampler 0 0) [some 1]
      ⟨[some 0], [some 0], [some 0], [some 0], [some 0], 0⟩).calls = 12 ∧
    ¬ (RKF45substep (constSampler 0 0) [some 1]
      ⟨[some 0], [some 0], [some 0], [some 0], [some 0], 0⟩).calls = 6 := by
  constructor
  · rfl
  · intro h
    have h12 : (RKF45substep (constSampler 0 0) [some 1]
        ⟨[some 0], [some 0], [some 0], [some 0], [some 0], 0⟩).calls = 12 := rfl
    rw [h12] at h
    exact absurd h (by decide)

/-- Claim C2 (amended): each `RFK45_interp` call makes exactly six
Velocity Sampler invocations, and each RKF45 sub-step makes twelve —
six for the 4th-order trajectory (combined with `b4`) and six more, at
the separately-evolving 5th-order trajectory positions, combined with
`b5`.  The two position estimates therefore come from two separate sets
of stage evaluations. -/
theorem C2_substep_sampler_calls (f : Sampler) (xs ys dts ts : List FP) (s : RState) :
    (RFK45_interp f xs ys dts ts).2.2 = 6 ∧
    (RKF45substep f dts s).calls = s.calls + 12 ∧
    (RKF45substep f dts s).rx4 = List.zipWith fadd s.rx4
      (List.zipWith fmul dts (np_dot b4 (RFK45_interp f s.rx4 s.ry4 dts s.rt).1)) ∧
    (RKF45substep f dts s).rx5 = List.zipWith fadd s.rx5
      (List.zipWith fmul dts (np_dot b5 (RFK45_interp f s.rx5 s.ry5 dts s.rt).1)) := by
  refine ⟨rfl, ?_, rfl, rfl⟩
  show s.calls + 6 + 6 = s.calls + 12
  omega

/-- Claim C3: on a spatially and temporally constant velocity field
`(u, v)` covering all queried points, each of the three schemes (euler,
RK4, RKF45) returns, for every step count `N ≥ 1` (and, for RKF45, any
positive fuel), the exact final positions `x0 = x + u·(t0 − t)` and
`y0 = y + v·(t0 − t)` per particle.  The embedding computes in exact
rational arithmetic, so "within floating-point tolerance" is realized
as exact equality. -/
theorem C3_uniform_field_exactness (st : Advect) (u v : ℚ) (N : ℤ) (fuel : ℕ)
    (hY : st.y.length = st.x.length) (hT : st.t.length = st.x.length)
    (hx : st.x ≠ []) (hN : 1 ≤ N) (hf : 1 ≤ fuel) :
    (st.euler (constSampler u v) N).x0 =
      some (List.zipWith (fun a c => some (a + u * (st.t0 - c))) st.x st.t) ∧
    (st.euler (constSampler u v) N).y0 =
      some (List.zipWith (fun b c => some (b + v * (st.t0 - c))) st.y st.t) ∧
    (st.RK4 (constSampler u v) N).x0 =
      some (List.zipWith (fun a c => some (a + u * (st.t0 - c))) st.x st.t) ∧
    (st.RK4 (constSampler u v) N).y0 =
      some (List.zipWith (fun b c => some (b + v * (st.t0 - c))) st.y st.t) ∧
    st.RKF45 (constSampler u v) N fuel =
      some { st with
        x0 := some (List.zipWith (fun a c => some (a + u * (st.t0 - c))) st.x st.t)
        y0 := some (List.zipWith (fun b c => some (b + v * (st.t0 - c))) st.y st.t) } := by
  rw [euler_const u v st N hY hT hN, RK4_const u v st N hY hT hN]
  exact ⟨rfl, rfl, rfl, rfl, RKF45_const u v st N fuel hY hT hx hN hf⟩

/-- Claim C3 witness: one particle at the origin, source time 0, target
time 7, unit velocity field, `N = 3`, fuel 1: all three schemes return
exactly `(7, 7)`. -/
theorem C3_uniform_field_exactness_witness :
    (Advect.euler ⟨[0], [0], [0], 7, none, none⟩ (constSampler 1 1) 3).x0 =
      some (List.zipWith (fun a c => some (a + 1 * ((7 : ℚ) - c))) [0] [0]) ∧
    (Advect.euler ⟨[0], [0], [0], 7, none, none⟩ (constSampler 1 1) 3).y0 =
      some (List.zipWith (fun b c => some (b + 1 * ((7 : ℚ) - c))) [0] [0]) ∧
    (Advect.RK4 ⟨[0], [0], [0], 7, none, none⟩ (constSampler 1 1) 3).x0 =
      some (List.zipWith (fun a c => some (a + 1 * ((7 : ℚ) - c))) [0] [0]) ∧
    (Advect.RK4 ⟨[0], [0], [0], 7, none, none⟩ (constSampler 1 1) 3).y0 =
      some (List.zipWith (fun b c => some (b + 1 * ((7 : ℚ) - c))) [0] [0]) ∧
    Advect.RKF45 ⟨[0], [0], [0], 7, none, none⟩ (constSampler 1 1) 3 1 =
      some { x := [0], y := [0], t := [0], t0 := 7
             x0 := some (List.zipWith (fun a c => some (a + 1 * ((7 : ℚ) - c))) [0] [0])
             y0 := some (List.zipWith (fun b c => some (b + 1 * ((7 : ℚ) - c))) [0] [0]) } :=
  C3_uniform_field_exactness ⟨[0], [0], [0], 7, none, none⟩ 1 1 3 1
    rfl rfl (by simp) (by norm_num) (by norm_num)

/-- If the outer step-doubling loop returns, the iteration it accepted
had a finite squared RMS discrepancy at most `tolerance²`, and the
returned coordinates are the 4th-order trajectory of that iteration
(recomputable at the returned `scale`). -/
lemma RKF45loop_returns (f : Sampler) (st : Advect) (N : ℤ) :
    ∀ (fuel scale : ℕ) (x0 y0 xf yf : List FP) (sc : ℕ),
    RKF45loop f st N fuel scale x0 y0 = some (xf, yf, sc) →
    ∃ s : ℚ, RKF45sigmaAt f st N sc = some s ∧ s ≤ tolerance ^ 2 ∧
      xf = (RKF45trajAt f st ((sc : ℤ) * N)).rx4 ∧
      yf = (RKF45trajAt f st ((sc : ℤ) * N)).ry4 := by
  intro fuel
  induction fuel with
  | zero =>
    intro scale x0 y0 xf yf sc h
    exact Option.noConfusion h
  | succ m ih =>
    intro scale x0 y0 xf yf sc h
    rw [RKF45loop_succ] at h
    simp only at h
    rcases hsg : sigmaSq (RKF45trajAt f st ((scale : ℤ) * N)).rx4
        (RKF45trajAt f st ((scale : ℤ) * N)).ry4
        (RKF45trajAt f st ((scale : ℤ) * N)).rx5
        (RKF45trajAt f st ((scale : ℤ) * N)).ry5 with _ | s
    · rw [hsg] at h
      simp only [contB, acceptB, if_true] at h
      exact ih _ _ _ _ _ _ h
    · rw [hsg] at h
      by_cases hts : tolerance ^ 2 < s
      · have hbound : contB (some s) = true := by simp [contB, hts]
        rw [hbound, if_pos rfl] at h
        exact ih _ _ _ _ _ _ h
      · have hcont : contB (some s) = false := by simp [contB, hts]
        have haccept : acceptB (some s) = true := by
          simp [acceptB, le_of_not_lt hts]
        rw [hcont, haccept] at h
        norm_num at h
        obtain ⟨hx, hy, hsc⟩ := h
        subst hsc
        exact ⟨s, hsg, le_of_not_lt hts, hx.symm, hy.symm⟩

/-- Claim C4: after an RKF45 call returns, the squared RMS positional
discrepancy between the accepted 4th-order trajectory and the 5th-order
trajectory recomputed at the same final `scale`, taken over the
particles where the 4th-order trajectory is finite, is finite and at
most `tolerance²` (tolerance 5/100); the comparison set cannot have been
empty, since an empty set makes `sigma` NaN and the loop then never
exits.  The accepted coordinates are exactly that 4th-order
trajectory. -/
theorem C4_rkf45_error_bound (f : Sampler) (st : Advect) (N : ℤ) (fuel : ℕ)
    (st' : Advect) (h : st.RKF45 f N fuel = some st') :
    ∃ (sc : ℕ) (s : ℚ), RKF45sigmaAt f st N sc = some s ∧ s ≤ tolerance ^ 2 ∧
      st'.x0 = some ((RKF45trajAt f st ((sc : ℤ) * N)).rx4) ∧
      st'.y0 = some ((RKF45trajAt f st ((sc : ℤ) * N)).ry4) := by
  unfold Advect.RKF45 at h
  cases hl : RKF45loop f st N fuel 1 (st.x.map some) (st.y.map some) with
  | none => rw [hl] at h; exact Option.noConfusion h
  | some r =>
    rw [hl] at h
    have h' : ({ st with x0 := some r.1, y0 := some r.2.1 } : Advect) = st' :=
      Option.some.inj h
    obtain ⟨s, hs1, hs2, hs3, hs4⟩ :=
      RKF45loop_returns f st N fuel 1 (st.x.map some) (st.y.map some)
        r.1 r.2.1 r.2.2 hl
    refine ⟨r.2.2, s, hs1, hs2, ?_, ?_⟩
    · rw [← h']
      exact congrArg some hs3
    · rw [← h']
      exact congrArg some hs4

/-- Claim C4 witness: the error-bound theorem applied to a terminating
zero-velocity RKF45 run (the hypothesis is discharged by the
constant-field evaluation). -/
theorem C4_rkf45_error_bound_witness :
    ∃ (sc : ℕ) (s : ℚ),
      RKF45sigmaAt (constSampler 0 0) ⟨[0], [0], [0], 1, none, none⟩ 1 sc = some s ∧
      s ≤ tolerance ^ 2 ∧
      (⟨[0], [0], [0], 1, some [some (0 + 0 * (1 - 0))],
        some [some (0 + 0 * (1 - 0))]⟩ : Advect).x0 =
        some ((RKF45trajAt (constSampler 0 0) ⟨[0], [0], [0], 1, none, none⟩
          ((sc : ℤ) * 1)).rx4) ∧
      (⟨[0], [0], [0], 1, some [some (0 + 0 * (1 - 0))],
        some [some (0 + 0 * (1 - 0))]⟩ : Advect).y0 =
        some ((RKF45trajAt (constSampler 0 0) ⟨[0], [0], [0], 1, none, none⟩
          ((sc : ℤ) * 1)).ry4) :=
  C4_rkf45_error_bound (constSampler 0 0) ⟨[0], [0], [0], 1, none, none⟩ 1 1
    ⟨[0], [0], [0], 1, some [some (0 + 0 * (1 - 0))], some [some (0 + 0 * (1 - 0))]⟩
    (RKF45_const 0 0 ⟨[0], [0], [0], 1, none, none⟩ 1 1 rfl rfl (by simp)
      (by norm_num) (by norm_num))

/-- Claim C6 counterexample: the lowercase selector `"rk4"` does not run
the fourth-order integrator; the dispatch is case-sensitive and raises
`ValueError("Invalid advection function")`. -/
theorem C6_counterexample_lowercase_rk4 :
    Advect.translate ⟨[0], [0], [0], 1, none, none⟩ (constSampler 0 0) "rk4"
      (some 1) 1 1 = Except.error "Invalid advection function" := rfl

/-- Claim C6 (amended): the scheme selector takes the case-sensitive
values `euler`, `RK4` and `RKF45`; each of these runs the corresponding
integrator on the planner's step count, and every other selector string
(including the lowercase `rk4`, `rkf45`) fails at dispatch time with the
`ValueError`, producing no final coordinates. -/
theorem C6_dispatch (st : Advect) (f : Sampler) (Nopt : Option ℤ) (step : ℚ)
    (fuel : ℕ) (s : String) :
    st.translate f "euler" Nopt step fuel =
      .ok (some (st.euler f (plannerN Nopt (TS.array st.t) (TS.scalar st.t0) step))) ∧
    st.translate f "RK4" Nopt step fuel =
      .ok (some (st.RK4 f (plannerN Nopt (TS.array st.t) (TS.scalar st.t0) step))) ∧
    st.translate f "RKF45" Nopt step fuel =
      .ok (st.RKF45 f (plannerN Nopt (TS.array st.t) (TS.scalar st.t0) step) fuel) ∧
    (s ≠ "euler" → s ≠ "RK4" → s ≠ "RKF45" →
      st.translate f s Nopt step fuel = .error "Invalid advection function") := by
  refine ⟨rfl, rfl, rfl, ?_⟩
  intro h1 h2 h3
  simp [Advect.translate, h1, h2, h3]

/-- Claim C6 witness: the amended dispatch theorem applied to the
lowercase selector `"rkf45"`. -/
theorem C6_dispatch_witness :
    Advect.translate ⟨[0], [0], [0], 1, none, none⟩ (constSampler 0 0) "rkf45"
      (some 1) 1 1 = Except.error "Invalid advection function" :=
  (C6_dispatch ⟨[0], [0], [0], 1, none, none⟩ (constSampler 0 0) (some 1) 1 1
    "rkf45").2.2.2 (by decide) (by decide) (by decide)

lemma foldl_min_le_init : ∀ (l : List ℚ) (a : ℚ), l.foldl min a ≤ a := by
  intro l
  induction l with
  | nil => intro a; exact le_refl a
  | cons b l ih =>
    intro a
    exact le_trans (ih (min a b)) (min_le_left a b)

lemma le_foldl_max_init : ∀ (l : List ℚ) (a : ℚ), a ≤ l.foldl max a := by
  intro l
  induction l with
  | nil => intro a; exact le_refl a
  | cons b l ih =>
    intro a
    exact le_trans (le_max_left a b) (ih (max a b))

lemma listMin_le_listMax (l : List ℚ) (h : l ≠ []) : listMin l ≤ listMax l := by
  cases l with
  | nil => exact absurd rfl h
  | cons a l =>
    exact le_trans (foldl_min_le_init l a) (le_foldl_max_init l a)

lemma listMax_nonneg (l : List ℚ) (h : ∀ x ∈ l, 0 ≤ x) : 0 ≤ listMax l := by
  cases l with
  | nil => exact le_refl 0
  | cons a l =>
    exact le_trans (h a (List.mem_cons_self a l)) (le_foldl_max_init l a)

lemma mem_zipWith_abs : ∀ (X Y : List ℚ) (x : ℚ),
    x ∈ List.zipWith (fun a b => |a - b|) X Y → 0 ≤ x := by
  intro X
  induction X with
  | nil => intro Y x h; simp at h
  | cons a X ih =>
    intro Y x h
    cases Y with
    | nil => simp at h
    | cons b Y =>
      rw [List.zipWith_cons_cons, List.mem_cons] at h
      rcases h with h | h
      · subst h; exact abs_nonneg _
      · exact ih Y x h

lemma maxAbsDiff_nonneg (t0 t : TS) : 0 ≤ TS.maxAbsDiff t0 t := by
  cases t0 with
  | scalar a =>
    cases t with
    | scalar b => exact abs_nonneg _
    | array l =>
      refine listMax_nonneg _ (fun x hx => ?_)
      obtain ⟨q, _, hq⟩ := List.mem_map.mp hx
      exact hq ▸ abs_nonneg _
  | array l =>
    cases t with
    | scalar b =>
      refine listMax_nonneg _ (fun x hx => ?_)
      obtain ⟨q, _, hq⟩ := List.mem_map.mp hx
      exact hq ▸ abs_nonneg _
    | array m =>
      exact listMax_nonneg _ (fun x hx => mem_zipWith_abs l m x hx)

lemma to_int64_of_nonneg (q : ℚ) (h : 0 ≤ q) : to_int64 q = ⌊q⌋ := if_pos h

/-- Claim C5: with no explicit `N`, the Step Planner computes
`|max(t) − min(t0)|/step` when `min(t0) < min(t)`, else
`|max(t0) − min(t)|/step` when `max(t0) > max(t)`, else
`max |t0 − t|/step` when either time is a scalar, else
`|mean(t0) − mean(t)|/step`, floored to an integer (truncation toward
zero agrees with the floor since every branch is nonnegative for a
positive step); an explicitly supplied `N` is used unchanged.  In
particular `t = 0, t0 = 10, step = 2` gives `N = 5`, and
`t = [0, 5], t0 = 10, step = 2` gives `N = 5`. -/
theorem C5_step_planner :
    (∀ (n : ℤ) (t t0 : TS) (step : ℚ), plannerN (some n) t t0 step = n) ∧
    (∀ (t t0 : TS) (step : ℚ), 0 < step → t0.tmin < t.tmin →
      plannerN none t t0 step = ⌊|t.tmax - t0.tmin| / step⌋) ∧
    (∀ (t t0 : TS) (step : ℚ), 0 < step → ¬ t0.tmin < t.tmin → t.tmax < t0.tmax →
      plannerN none t t0 step = ⌊|t0.tmax - t.tmin| / step⌋) ∧
    (∀ (t t0 : TS) (step : ℚ), 0 < step → ¬ t0.tmin < t.tmin → ¬ t.tmax < t0.tmax →
      (t0.ndim0 || t.ndim0) = true →
      plannerN none t t0 step = ⌊TS.maxAbsDiff t0 t / step⌋) ∧
    (∀ (t t0 : TS) (step : ℚ), 0 < step → ¬ t0.tmin < t.tmin → ¬ t.tmax < t0.tmax →
      (t0.ndim0 || t.ndim0) = false →
      plannerN none t t0 step = ⌊|t0.tmean - t.tmean| / step⌋) ∧
    plannerN none (TS.scalar 0) (TS.scalar 10) 2 = 5 ∧
    plannerN none (TS.array [0, 5]) (TS.scalar 10) 2 = 5 := by
  refine ⟨fun n t t0 step => rfl, ?_, ?_, ?_, ?_, ?_, ?_⟩
  · intro t t0 step hstep h1
    show to_int64 (n_steps t t0 step) = _
    rw [n_steps, if_pos h1]
    exact to_int64_of_nonneg _ (div_nonneg (abs_nonneg _) hstep.le)
  · intro t t0 step hstep h1 h2
    show to_int64 (n_steps t t0 step) = _
    rw [n_steps, if_neg h1, if_pos h2]
    exact to_int64_of_nonneg _ (div_nonneg (abs_nonneg _) hstep.le)
  · intro t t0 step hstep h1 h2 h3
    show to_int64 (n_steps t t0 step) = _
    rw [n_steps, if_neg h1, if_neg h2, if_pos h3]
    exact to_int64_of_nonneg _ (div_nonneg (maxAbsDiff_nonneg t0 t) hstep.le)
  · intro t t0 step hstep h1 h2 h3
    show to_int64 (n_steps t t0 step) = _
    rw [n_steps, if_neg h1, if_neg h2, if_neg (by simp [h3])]
    exact to_int64_of_nonneg _ (div_nonneg (abs_nonneg _) hstep.le)
  · norm_num [plannerN, n_steps, to_int64, TS.tmin, TS.tmax, TS.ndim0, listMin, listMax]
  · norm_num [plannerN, n_steps, to_int64, TS.tmin, TS.tmax, TS.ndim0, listMin, listMax]

/-- Claim C5 witness: the forward-advection branch applied to the
spec's second example, `t = [0, 5]`, `t0 = 10`, `step = 2`. -/
theorem C5_step_planner_witness :
    plannerN none (TS.array [0, 5]) (TS.scalar 10) 2 =
      ⌊|(TS.scalar 10).tmax - (TS.array [0, 5]).tmin| / 2⌋ :=
  C5_step_planner.2.2.1 (TS.array [0, 5]) (TS.scalar 10) 2 (by norm_num)
    (by norm_num [TS.tmin, listMin]) (by norm_num [TS.tmax, listMax])

/-- Claim C7: a sampler query against a provider with a time axis first
clamps the query time elementwise into the provider's time domain
`[t_min, t_max]` and interpolates `U`, `V` at `(x, y, t_clipped)` with
the configured method (the clamped time lies in the domain, and a time
already inside the domain is left unchanged); against a provider with
no time dimension the query is made at `(x, y)` only, independent of the
query time. -/
theorem C7_sampler_clipping (v : Velocity) (m : Method) (xs ys ts : List FP) :
    (v.hasT = true →
      Advect.interp v m xs ys ts =
        zipWith3 (fun x y t => v.sampleXYT m x y t) xs ys
          (ts.map (fun t => fclip t (listMin v.tvals) (listMax v.tvals))) ∧
      (v.tvals ≠ [] → ∀ t ∈ ts, ∀ q : ℚ,
        fclip t (listMin v.tvals) (listMax v.tvals) = some q →
        listMin v.tvals ≤ q ∧ q ≤ listMax v.tvals) ∧
      (∀ q : ℚ, listMin v.tvals ≤ q → q ≤ listMax v.tvals →
        fclip (some q) (listMin v.tvals) (listMax v.tvals) = some q)) ∧
    (v.hasT = false →
      Advect.interp v m xs ys ts = List.zipWith (fun x y => v.sampleXY m x y) xs ys ∧
      ∀ ts2 : List FP, Advect.interp v m xs ys ts = Advect.interp v m xs ys ts2) := by
  constructor
  · intro h
    refine ⟨by simp [Advect.interp, h], ?_, ?_⟩
    · intro hne t _ q hq
      cases t with
      | none => exact Option.noConfusion hq
      | some a =>
        rw [fclip] at hq
        obtain rfl : min (max a (listMin v.tvals)) (listMax v.tvals) = q :=
          Option.some.inj hq
        constructor
        · exact le_min (le_max_right a (listMin v.tvals)) (listMin_le_listMax v.tvals hne)
        · exact min_le_right _ _
    · intro q h1 h2
      rw [fclip, max_eq_left h1, min_eq_left h2]
  · intro h
    exact ⟨by simp [Advect.interp, h], fun ts2 => by simp [Advect.interp, h]⟩

/-- Claim C7 witness: the clipping theorem applied to a provider with
time axis `[0, 10]` queried at time 20 (clamped to 10) and, in the
in-range part, at time 7. -/
theorem C7_sampler_clipping_witness :
    (Velocity.mk true [0, 10] (fun _ _ _ t => (t, t)) (fun _ x y => (x, y))).tvals ≠ [] ∧
    (listMin [0, 10] ≤ (10 : ℚ) ∧ (10 : ℚ) ≤ listMax [0, 10]) ∧
    fclip (some 7) (listMin [0, 10]) (listMax [0, 10]) = some 7 := by
  have h := C7_sampler_clipping
    (Velocity.mk true [0, 10] (fun _ _ _ t => (t, t)) (fun _ x y => (x, y)))
    Method.linear [some 1] [some 1] [some 20]
  refine ⟨by simp, ?_, ?_⟩
  · exact (h.1 rfl).2.1 (by simp) (some 20) (List.mem_cons_self _ _) 10
      (by norm_num [fclip, listMin, listMax])
  · exact (h.1 rfl).2.2 7 (by norm_num [listMin]) (by norm_num [listMax])

/-- Claim C8: once an integration has produced `x0`, `y0`, the distance
diagnostic is the elementwise square root of
`(x0 - x)² + (y0 - y)²` (modelled by its radicand); for
`x = 0, y = 0, x0 = 3, y0 = 4` the radicand is `5²`, i.e. the distance
is `5.0`; and requesting the diagnostic before any integration call
returns the explicit unavailable indicator (`None`) instead of raising. -/
theorem C8_distance (st : Advect) (xs0 ys0 : List FP)
    (hx : st.x0 = some xs0) (hy : st.y0 = some ys0) :
    st.distanceSq = some (List.zipWith fadd
      (List.zipWith (fun a q => fsq (fsub a (some q))) xs0 st.x)
      (List.zipWith (fun a q => fsq (fsub a (some q))) ys0 st.y)) ∧
    (∀ x y t t0, (Advect.mk x y t t0 none none).distanceSq = none) ∧
    (Advect.mk [0] [0] [0] 0 (some [some 3]) (some [some 4])).distanceSq =
      some [some (5 ^ 2)] := by
  refine ⟨?_, fun x y t t0 => rfl,
    by norm_num [Advect.distanceSq, fsq, fsub, fadd, fmul]⟩
  simp [Advect.distanceSq, hx, hy]

/-- Claim C8 witness: the distance theorem applied at the 3-4-5 state. -/
theorem C8_distance_witness :
    (Advect.mk [0] [0] [0] 0 (some [some 3]) (some [some 4])).distanceSq =
      some (List.zipWith fadd
        (List.zipWith (fun a q => fsq (fsub a (some q))) [some 3] [(0 : ℚ)])
        (List.zipWith (fun a q => fsq (fsub a (some q))) [some 4] [(0 : ℚ)])) :=
  (C8_distance (Advect.mk [0] [0] [0] 0 (some [some 3]) (some [some 4]))
    [some 3] [some 4] rfl rfl).1

/-- Claim C9: when the planner's step count floors to zero and no
explicit `N` is supplied, Euler and RK4 run zero sub-steps and return
`x0 = x`, `y0 = y` exactly (copies of the unmoved source coordinates),
and the per-particle sub-step size `dt = (t0 - t)/N` is a division by
zero producing a non-finite value that is never consumed. -/
theorem C9_zero_steps (st : Advect) (f : Sampler) (step : ℚ)
    (h : plannerN none (TS.array st.t) (TS.scalar st.t0) step = 0) :
    (st.euler f (plannerN none (TS.array st.t) (TS.scalar st.t0) step)).x0 =
      some (st.x.map some) ∧
    (st.euler f (plannerN none (TS.array st.t) (TS.scalar st.t0) step)).y0 =
      some (st.y.map some) ∧
    (st.RK4 f (plannerN none (TS.array st.t) (TS.scalar st.t0) step)).x0 =
      some (st.x.map some) ∧
    (st.RK4 f (plannerN none (TS.array st.t) (TS.scalar st.t0) step)).y0 =
      some (st.y.map some) ∧
    (∀ tq ∈ st.t, fdiv (some (st.t0 - tq)) (some ((0 : ℤ) : ℚ)) = none) := by
  rw [h]
  exact ⟨rfl, rfl, rfl, rfl, fun tq _ => by simp [fdiv]⟩

/-- Claim C9 witness: one particle at `t = 0` advected to `t0 = 1`
second with the default step of 86400 seconds: the planner floors
`1/86400` to zero and the particle does not move. -/
theorem C9_zero_steps_witness :
    (Advect.euler ⟨[0], [0], [0], 1, none, none⟩ (constSampler 1 1)
      (plannerN none (TS.array [0]) (TS.scalar 1) 86400)).x0 = some [some 0] :=
  (C9_zero_steps ⟨[0], [0], [0], 1, none, none⟩ (constSampler 1 1) 86400
    (by norm_num [plannerN, n_steps, to_int64, TS.tmin, TS.tmax, TS.ndim0,
      TS.maxAbsDiff, listMin, listMax])).1

/-- Claim C10: every integrator reads the source attributes `x`, `y`,
`t` (and the target time `t0`) only through copies and writes its
results exclusively to `x0`, `y0`: after any of the three schemes the
source attributes are unchanged. -/
theorem C10_frame (st : Advect) (f : Sampler) (N : ℤ) (fuel : ℕ) :
    ((st.euler f N).x = st.x ∧ (st.euler f N).y = st.y ∧
      (st.euler f N).t = st.t ∧ (st.euler f N).t0 = st.t0) ∧
    ((st.RK4 f N).x = st.x ∧ (st.RK4 f N).y = st.y ∧
      (st.RK4 f N).t = st.t ∧ (st.RK4 f N).t0 = st.t0) ∧
    (∀ st', st.RKF45 f N fuel = some st' →
      st'.x = st.x ∧ st'.y = st.y ∧ st'.t = st.t ∧ st'.t0 = st.t0) := by
  refine ⟨⟨rfl, rfl, rfl, rfl⟩, ⟨rfl, rfl, rfl, rfl⟩, ?_⟩
  intro st' h
  unfold Advect.RKF45 at h
  cases hl : RKF45loop f st N fuel 1 (st.x.map some) (st.y.map some) with
  | none => rw [hl] at h; exact Option.noConfusion h
  | some r =>
    rw [hl] at h
    have h' : ({ st with x0 := some r.1, y0 := some r.2.1 } : Advect) = st' :=
      Option.some.inj h
    rw [← h']
    exact ⟨rfl, rfl, rfl, rfl⟩

/-- With every sampler query returning NaN the single particle's
trajectories become entirely non-finite after one sub-step, so the
comparison set is empty and the error estimator is `0/0`, i.e. NaN. -/
lemma RKF45trajAt_nan :
    RKF45trajAt nanSampler ⟨[0], [0], [0], 1, none, none⟩ (((1 : ℕ) : ℤ) * 1) =
      ⟨[none], [none], [none], [none], [some 1], 12⟩ := by
  norm_num [RKF45trajAt, RKF45substep, RFK45_interp, interpCall, nanSampler, loopN_one,
    np_dot, smulL, fdiv, fadd, fmul, fsub, zipWith3]

lemma sigmaSq_nan : sigmaSq [none] [none] [none] [none] = none := by
  norm_num [sigmaSq, zip4, isFin, fdiv]

/-- On a NaN error estimate the inner `if` accepts (does not double the
scale) while the `while` condition is still true, so the loop re-runs
the identical iteration: the call never returns, whatever fuel it is
given. -/
lemma RKF45loop_nan (fuel : ℕ) : ∀ x0 y0 : List FP,
    RKF45loop nanSampler ⟨[0], [0], [0], 1, none, none⟩ 1 fuel 1 x0 y0 = none := by
  induction fuel with
  | zero => intro x0 y0; rfl
  | succ n ih =>
    intro x0 y0
    rw [RKF45loop_succ]
    simp only [RKF45trajAt_nan, sigmaSq_nan]
    norm_num [acceptB, contB]
    exact ih _ _

/-- Claim C1: the `sigma ≤ tolerance` half of the acceptance criterion
is terminal (see the RKF45 error-bound development), but the NaN half is
not: a NaN `sigma` passes the inner acceptance `if` (`x0, y0` are
assigned the 4th-order trajectory and `scale` is not doubled), yet the
loop condition `(sigma > tolerance) or np.isnan(sigma)` is also true on
NaN, so the loop re-runs the identical iteration forever and `RKF45`
never returns.  Concretely: one particle whose every velocity sample is
NaN (out-of-domain coordinates) makes the call loop indefinitely. -/
theorem C1_nan_sigma_never_returns :
    acceptB none = true ∧ contB none = true ∧
    RKF45sigmaAt nanSampler ⟨[0], [0], [0], 1, none, none⟩ 1 1 = none ∧
    (∀ fuel : ℕ,
      Advect.RKF45 ⟨[0], [0], [0], 1, none, none⟩ nanSampler 1 fuel = none) := by
  refine ⟨rfl, rfl, ?_, ?_⟩
  · show sigmaSq
      (RKF45trajAt nanSampler ⟨[0], [0], [0], 1, none, none⟩ (((1 : ℕ) : ℤ) * 1)).rx4
      (RKF45trajAt nanSampler ⟨[0], [0], [0], 1, none, none⟩ (((1 : ℕ) : ℤ) * 1)).ry4
      (RKF45trajAt nanSampler ⟨[0], [0], [0], 1, none, none⟩ (((1 : ℕ) : ℤ) * 1)).rx5
      (RKF45trajAt nanSampler ⟨[0], [0], [0], 1, none, none⟩ (((1 : ℕ) : ℤ) * 1)).ry5
      = none
    rw [RKF45trajAt_nan]
    exact sigmaSq_nan
  · intro fuel
    unfold Advect.RKF45
    rw [RKF45loop_nan fuel _ _]
    rfl

/-- Claim C10 witness: the frame theorem applied to a terminating
zero-velocity RKF45 run. -/
theorem C10_frame_witness :
    (⟨[0], [0], [0], 1, some [some (0 + 0 * (1 - 0))],
      some [some (0 + 0 * (1 - 0))]⟩ : Advect).x = [0] ∧
    (⟨[0], [0], [0], 1, some [some (0 + 0 * (1 - 0))],
      some [some (0 + 0 * (1 - 0))]⟩ : Advect).y = [0] ∧
    (⟨[0], [0], [0], 1, some [some (0 + 0 * (1 - 0))],
      some [some (0 + 0 * (1 - 0))]⟩ : Advect).t = [0] ∧
    (⟨[0], [0], [0], 1, some [some (0 + 0 * (1 - 0))],
      some [some (0 + 0 * (1 - 0))]⟩ : Advect).t0 = 1 :=
  (C10_frame ⟨[0], [0], [0], 1, none, none⟩ (constSampler 0 0) 1 1).2.2
    ⟨[0], [0], [0], 1, some [some (0 + 0 * (1 - 0))], some [some (0 + 0 * (1 - 0))]⟩
    (RKF45_const 0 0 ⟨[0], [0], [0], 1, none, none⟩ 1 1 rfl rfl (by simp)
      (by norm_num) (by norm_num))

end XAdvect
